import Mathlib

/-!
# crocgodyl: the application server and user accessors

A shallow embedding of `appServer.go` and `appUser.go`.  The two files are thin
accessors over three things they do not define: the dispatcher `queryPanelAPI`
(another file of the package), `encoding/json` and `time` (standard library).

* The dispatcher is an argument: a `Panel` says how it answers each request and
  records the requests handed to it.  An accessor maps a panel to its result and
  the panel after the call.
* `encoding/json` is embedded as far as the accessors exercise it: the grammar of
  JSON texts (`parseJSON`), the struct-tag driven encoder with `omitempty`
  (`Marshal`), and the decoder (`Unmarshal`) with its two kinds of failure: an
  invalid text is rejected before anything is stored; a value that does not fit
  its field is recorded and decoding goes on, so the target keeps what was stored.
* `time.Time` and the `Meta` structure are reached through an `Env` argument; the
  theorems hold for every `Env`.

Conventions.  A Go `int` is an `Int` within the range of a 64-bit platform
(`isInt`).  The strings of a `ServerChange`, which a caller hands in, are Go
strings (`GoString`): byte sequences that need not be valid UTF-8, of which the
encoder writes each invalid byte as `\ufffd`.  Every other `[]byte` or `string`, a
reply body or a decoded field among them, is a `String`, a text: there, byte
sequences that are not valid UTF-8 are outside the model.  A slice or a map is an `Option` of a list, `none` being nil; a slice is
its elements, without a capacity.  An `interface{}` holds the JSON document
stored into it, `JSON.null` being nil.
-/

namespace Crocgodyl

/-! ## Errors -/

/-- Modelled from the spec: the classified failure `ApiError` of the dispatcher,
whose declaration is in another file of the package.  The spec gives it three
variants: a transport failure with its cause, a non-2xx status with the status
code and the raw body, and a panel error with the code and detail of the first
error of the panel's envelope. -/
inductive ApiError where
  | Transport (cause : String)
  | HTTPStatus (code : Nat) (body : String)
  | PanelError (code : String) (detail : String)
  deriving DecidableEq, Repr

/-- The `error` values that reach a caller of the accessors: a failure of the
dispatcher, the two errors of `json.Unmarshal` that matter here, and any other
error by its message.  The offset of a syntax error and the field path of a type
error are not kept. -/
inductive Error where
  | Api (e : ApiError)
  | SyntaxError
  | UnmarshalTypeError (value : String) (type : String)
  | Other (msg : String)
  deriving DecidableEq, Repr

/-! ## Go strings -/

/-- A byte. -/
abbrev Byte := Fin 256

/-- A Go `string` as a caller can hand it in: a sequence of bytes, which need not
be valid UTF-8. -/
abbrev GoString := List Byte

/-- The byte of a number, taken modulo 256. -/
def byte (n : Nat) : Byte := ⟨n % 256, Nat.mod_lt _ (by decide)⟩

/-- The UTF-8 encoding of a character (`utf8.AppendRune`). -/
def utf8Char (c : Char) : List Byte :=
  if c.toNat < 0x80 then [byte c.toNat]
  else if c.toNat < 0x800 then [byte (0xC0 + c.toNat / 64), byte (0x80 + c.toNat % 64)]
  else if c.toNat < 0x10000 then
    [byte (0xE0 + c.toNat / 4096), byte (0x80 + c.toNat / 64 % 64), byte (0x80 + c.toNat % 64)]
  else
    [byte (0xF0 + c.toNat / 262144), byte (0x80 + c.toNat / 4096 % 64),
      byte (0x80 + c.toNat / 64 % 64), byte (0x80 + c.toNat % 64)]

/-- The Go string of a text: its UTF-8 encoding. -/
def utf8 (s : String) : GoString := s.data.flatMap utf8Char

/-- A continuation byte, `0x80` to `0xBF`. -/
def isCont (b : Byte) : Bool := 0x80 ≤ b.val ∧ b.val ≤ 0xBF

/-- The second byte that `utf8.DecodeRune` accepts after a lead byte: the ranges
that rule out over-long encodings, surrogates and values above U+10FFFF. -/
def accepts (b0 b1 : Byte) : Bool :=
  if b0.val = 0xE0 then 0xA0 ≤ b1.val ∧ b1.val ≤ 0xBF
  else if b0.val = 0xED then 0x80 ≤ b1.val ∧ b1.val ≤ 0x9F
  else if b0.val = 0xF0 then 0x90 ≤ b1.val ∧ b1.val ≤ 0xBF
  else if b0.val = 0xF4 then 0x80 ≤ b1.val ∧ b1.val ≤ 0x8F
  else isCont b1

/-- The call `utf8.DecodeRuneInString` at the head of a byte sequence: the
character and its width, or `none` with width 1, Go's `(RuneError, 1)`, for a
byte that starts no valid encoding. -/
def decodeRune : List Byte → Option Char × Nat
  | [] => (none, 1)
  | b0 :: rest =>
    if b0.val < 0x80 then (some (Char.ofNat b0.val), 1)
    else if 0xC2 ≤ b0.val ∧ b0.val ≤ 0xDF then
      match rest with
      | b1 :: _ =>
        if accepts b0 b1 then (some (Char.ofNat ((b0.val - 0xC0) * 64 + (b1.val - 0x80))), 2)
        else (none, 1)
      | [] => (none, 1)
    else if 0xE0 ≤ b0.val ∧ b0.val ≤ 0xEF then
      match rest with
      | b1 :: b2 :: _ =>
        if accepts b0 b1 ∧ isCont b2 then
          (some (Char.ofNat ((b0.val - 0xE0) * 4096 + (b1.val - 0x80) * 64 + (b2.val - 0x80))), 3)
        else (none, 1)
      | [_] => (none, 1)
      | [] => (none, 1)
    else if 0xF0 ≤ b0.val ∧ b0.val ≤ 0xF4 then
      match rest with
      | b1 :: b2 :: b3 :: _ =>
        if accepts b0 b1 ∧ isCont b2 ∧ isCont b3 then
          (some (Char.ofNat ((b0.val - 0xF0) * 262144 + (b1.val - 0x80) * 4096 +
            (b2.val - 0x80) * 64 + (b3.val - 0x80))), 4)
        else (none, 1)
      | [_, _] => (none, 1)
      | [_] => (none, 1)
      | [] => (none, 1)
    else (none, 1)

/-- The characters of a byte sequence read from its start, after skipping the
bytes of the character before: `none` stands for an invalid byte. -/
def runesFrom : Nat → List Byte → List (Option Char)
  | _, [] => []
  | skip + 1, _ :: rest => runesFrom skip rest
  | 0, b :: rest => (decodeRune (b :: rest)).1 :: runesFrom ((decodeRune (b :: rest)).2 - 1) rest

/-- The characters of a Go string, as a `range` loop or the encoder reads them. -/
def runes (g : GoString) : List (Option Char) := runesFrom 0 g

/-- The call `utf8.ValidString`: no byte is invalid. -/
def validUTF8 (g : GoString) : Bool := (runes g).all Option.isSome

/-- The text a Go string denotes once each invalid byte is replaced by U+FFFD:
what a JSON string written by the encoder for it is read back as. -/
def sanitize (g : GoString) : String :=
  String.mk ((runes g).map (fun r => r.getD (Char.ofNat 0xFFFD)))

/-! ## JSON values -/

/-- A JSON document.  A number written as an integer literal is `num`; a number
with a fraction or an exponent keeps its literal text in `numLit`.  Object
members are kept in the order of the text, duplicates included.  The encoder also
takes a string value as the bytes of a Go string (`bytes`) and a
`map[string]string` value as its entries in the order they are written
(`bytesMap`), and writes `\ufffd` for each invalid byte of them; the parser never
yields either. -/
inductive JSON where
  | null
  | bool (b : Bool)
  | num (n : Int)
  | numLit (raw : String)
  | str (s : String)
  | bytes (g : GoString)
  | bytesMap (es : List (GoString × GoString))
  | arr (elems : List JSON)
  | obj (members : List (String × JSON))
  deriving Repr

instance : Inhabited JSON := ⟨JSON.null⟩

/-! ## Reading a JSON text -/

/-- One unit of a string literal: a character written as itself (or through a
one-letter escape), or the 16-bit value of a `\uXXXX` escape. -/
inductive StrUnit where
  | lit (c : Char)
  | esc (u : Nat)
  deriving DecidableEq, Repr

/-- Turns the units of a string literal into characters.  A high surrogate
followed by a low surrogate is one character; a surrogate on its own becomes
U+FFFD. -/
def decodeUnits : List StrUnit → List Char
  | [] => []
  | StrUnit.lit c :: rest => c :: decodeUnits rest
  | StrUnit.esc hi :: StrUnit.esc lo :: rest =>
    if 0xD800 ≤ hi ∧ hi < 0xDC00 then
      if 0xDC00 ≤ lo ∧ lo < 0xE000 then
        Char.ofNat (0x10000 + (hi - 0xD800) * 0x400 + (lo - 0xDC00)) :: decodeUnits rest
      else Char.ofNat 0xFFFD :: decodeUnits (StrUnit.esc lo :: rest)
    else if 0xDC00 ≤ hi ∧ hi < 0xE000 then
      Char.ofNat 0xFFFD :: decodeUnits (StrUnit.esc lo :: rest)
    else Char.ofNat hi :: decodeUnits (StrUnit.esc lo :: rest)
  | StrUnit.esc u :: rest =>
    if 0xD800 ≤ u ∧ u < 0xE000 then Char.ofNat 0xFFFD :: decodeUnits rest
    else Char.ofNat u :: decodeUnits rest

/-- The tokens of a JSON text. -/
inductive Token where
  | lbrace | rbrace | lbrack | rbrack | colon | comma
  | str (s : String)
  | number (raw : List Char)
  | word (w : List Char)
  deriving DecidableEq, Repr

/-- Where the scanner stands between two characters. -/
inductive LexMode where
  | top
  | word (acc : List Char)
  | number (acc : List Char)
  | string (acc : List StrUnit)
  | escape (acc : List StrUnit)
  | hex (acc : List StrUnit) (digits : List Nat)
  deriving Repr

/-- The four characters the scanner skips between tokens. -/
def isSpace (c : Char) : Bool := c = ' ' ∨ c = '\t' ∨ c = '\r' ∨ c = '\n'

def isDigit (c : Char) : Bool := '0' ≤ c ∧ c ≤ '9'

/-- A character that can stand inside a number literal. -/
def isNumberChar (c : Char) : Bool :=
  isDigit c ∨ c = '-' ∨ c = '+' ∨ c = '.' ∨ c = 'e' ∨ c = 'E'

def isLower (c : Char) : Bool := 'a' ≤ c ∧ c ≤ 'z'

def hexValue (c : Char) : Option Nat :=
  if '0' ≤ c ∧ c ≤ '9' then some (c.toNat - 48)
  else if 'a' ≤ c ∧ c ≤ 'f' then some (c.toNat - 87)
  else if 'A' ≤ c ∧ c ≤ 'F' then some (c.toNat - 55)
  else none

/-- The character a one-letter escape stands for. -/
def escapeValue (c : Char) : Option Char :=
  if c = '"' then some '"'
  else if c = '\\' then some '\\'
  else if c = '/' then some '/'
  else if c = 'b' then some (Char.ofNat 8)
  else if c = 'f' then some (Char.ofNat 12)
  else if c = 'n' then some '\n'
  else if c = 'r' then some '\r'
  else if c = 't' then some '\t'
  else none

/-- A character met between two tokens. -/
def lexTop (c : Char) (toks : List Token) : Except Error (LexMode × List Token) :=
  if isSpace c then .ok (.top, toks)
  else if c = '{' then .ok (.top, Token.lbrace :: toks)
  else if c = '}' then .ok (.top, Token.rbrace :: toks)
  else if c = '[' then .ok (.top, Token.lbrack :: toks)
  else if c = ']' then .ok (.top, Token.rbrack :: toks)
  else if c = ':' then .ok (.top, Token.colon :: toks)
  else if c = ',' then .ok (.top, Token.comma :: toks)
  else if c = '"' then .ok (.string [], toks)
  else if c = '-' ∨ isDigit c then .ok (.number [c], toks)
  else if isLower c then .ok (.word [c], toks)
  else .error Error.SyntaxError

/-- One character of the text.  Tokens are collected in reverse. -/
def lexStep (st : LexMode × List Token) (c : Char) : Except Error (LexMode × List Token) :=
  match st with
  | (.top, toks) => lexTop c toks
  | (.word acc, toks) =>
    if isLower c then .ok (.word (c :: acc), toks)
    else lexTop c (Token.word acc.reverse :: toks)
  | (.number acc, toks) =>
    if isNumberChar c then .ok (.number (c :: acc), toks)
    else lexTop c (Token.number acc.reverse :: toks)
  | (.string acc, toks) =>
    if c = '"' then .ok (.top, Token.str (String.mk (decodeUnits acc.reverse)) :: toks)
    else if c = '\\' then .ok (.escape acc, toks)
    else if c.toNat < 0x20 then .error Error.SyntaxError
    else .ok (.string (StrUnit.lit c :: acc), toks)
  | (.escape acc, toks) =>
    if c = 'u' then .ok (.hex acc [], toks)
    else match escapeValue c with
      | some d => .ok (.string (StrUnit.lit d :: acc), toks)
      | none => .error Error.SyntaxError
  | (.hex acc ds, toks) =>
    match hexValue c with
    | none => .error Error.SyntaxError
    | some d =>
      match ds with
      | [a, b, e] => .ok (.string (StrUnit.esc (((a * 16 + b) * 16 + e) * 16 + d) :: acc), toks)
      | _ => .ok (.hex acc (ds ++ [d]), toks)

/-- The scanner over the characters of a text. -/
def lexLoop : List Char → LexMode × List Token → Except Error (LexMode × List Token)
  | [], st => .ok st
  | c :: cs, st =>
    match lexStep st c with
    | .error e => .error e
    | .ok st' => lexLoop cs st'

/-- The tokens of a text, or `SyntaxError` when a character cannot start or
continue a token, or the text ends inside a string literal. -/
def lex (text : String) : Except Error (List Token) :=
  match lexLoop text.data (.top, []) with
  | .error e => .error e
  | .ok (.top, toks) => .ok toks.reverse
  | .ok (.word acc, toks) => .ok (Token.word acc.reverse :: toks).reverse
  | .ok (.number acc, toks) => .ok (Token.number acc.reverse :: toks).reverse
  | .ok _ => .error Error.SyntaxError

/-- At least one digit, then `rest`. -/
def digits1 (cs : List Char) : Option (List Char) :=
  match cs.span isDigit with
  | ([], _) => none
  | (_, rest) => some rest

/-- The exponent part of a number literal, up to the end. -/
def validExp : List Char → Bool
  | [] => true
  | c :: cs =>
    if c = 'e' ∨ c = 'E' then
      match cs with
      | s :: ds => if s = '+' ∨ s = '-' then digits1 ds == some [] else digits1 (s :: ds) == some []
      | [] => false
    else false

/-- The fraction and exponent parts of a number literal, up to the end. -/
def validFracExp : List Char → Bool
  | '.' :: cs =>
    match digits1 cs with
    | some rest => validExp rest
    | none => false
  | cs => validExp cs

/-- The number grammar of JSON: `-?(0|[1-9][0-9]*)(\.[0-9]+)?([eE][+-]?[0-9]+)?`. -/
def validNumber (cs : List Char) : Bool :=
  let body := match cs with
    | '-' :: rest => rest
    | _ => cs
  match body with
  | '0' :: rest => validFracExp rest
  | c :: rest => if isDigit c then validFracExp ((c :: rest).dropWhile isDigit) else false
  | [] => false

/-- The value of a run of decimal digits. -/
def natOfDigits (cs : List Char) : Nat :=
  cs.foldl (fun n c => n * 10 + (c.toNat - 48)) 0

/-- The value of a number token. -/
def numberValue (raw : List Char) : Except Error JSON :=
  if validNumber raw then
    match raw with
    | '-' :: ds => if ds.all isDigit then .ok (.num (- (natOfDigits ds : Int))) else .ok (.numLit (String.mk raw))
    | ds => if ds.all isDigit then .ok (.num (natOfDigits ds : Int)) else .ok (.numLit (String.mk raw))
  else .error Error.SyntaxError

/-- A container whose next value is being read. -/
inductive Frame where
  | arr (acc : List JSON)
  | obj (acc : List (String × JSON)) (key : String)

/-- Where the parser stands between two tokens.  `acc` lists are in reverse. -/
inductive PState where
  | value (stack : List Frame)
  | arrFirst (stack : List Frame)
  | arrNext (acc : List JSON) (stack : List Frame)
  | objFirst (stack : List Frame)
  | objKey (acc : List (String × JSON)) (stack : List Frame)
  | objColon (acc : List (String × JSON)) (key : String) (stack : List Frame)
  | objNext (acc : List (String × JSON)) (stack : List Frame)
  | done (v : JSON)

/-- Nesting deeper than this is rejected by the scanner. -/
def maxNestingDepth : Nat := 10000

/-- A value is complete: it goes into the container on top of the stack. -/
def complete (v : JSON) : List Frame → PState
  | [] => .done v
  | Frame.arr acc :: st => .arrNext (v :: acc) st
  | Frame.obj acc key :: st => .objNext ((key, v) :: acc) st

/-- A token where a value must start. -/
def parseValue (t : Token) (stack : List Frame) : Except Error PState :=
  match t with
  | .lbrace => if stack.length + 1 > maxNestingDepth then .error Error.SyntaxError else .ok (.objFirst stack)
  | .lbrack => if stack.length + 1 > maxNestingDepth then .error Error.SyntaxError else .ok (.arrFirst stack)
  | .str s => .ok (complete (.str s) stack)
  | .number raw =>
    match numberValue raw with
    | .ok v => .ok (complete v stack)
    | .error e => .error e
  | .word w =>
    if w = "true".data then .ok (complete (.bool true) stack)
    else if w = "false".data then .ok (complete (.bool false) stack)
    else if w = "null".data then .ok (complete .null stack)
    else .error Error.SyntaxError
  | _ => .error Error.SyntaxError

/-- One token of the text. -/
def parseStep (st : PState) (t : Token) : Except Error PState :=
  match st, t with
  | .value stack, t => parseValue t stack
  | .arrFirst stack, .rbrack => .ok (complete (.arr []) stack)
  | .arrFirst stack, t => parseValue t (Frame.arr [] :: stack)
  | .arrNext acc stack, .comma => .ok (.value (Frame.arr acc :: stack))
  | .arrNext acc stack, .rbrack => .ok (complete (.arr acc.reverse) stack)
  | .objFirst stack, .rbrace => .ok (complete (.obj []) stack)
  | .objFirst stack, .str k => .ok (.objColon [] k stack)
  | .objKey acc stack, .str k => .ok (.objColon acc k stack)
  | .objColon acc k stack, .colon => .ok (.value (Frame.obj acc k :: stack))
  | .objNext acc stack, .comma => .ok (.objKey acc stack)
  | .objNext acc stack, .rbrace => .ok (complete (.obj acc.reverse) stack)
  | _, _ => .error Error.SyntaxError

/-- The parser over the tokens of a text. -/
def parseLoop : List Token → PState → Except Error PState
  | [], st => .ok st
  | t :: ts, st =>
    match parseStep st t with
    | .error e => .error e
    | .ok st' => parseLoop ts st'

/-- The document a text denotes, or `SyntaxError`.  This is the validity check
that `json.Unmarshal` runs over the whole input before it stores anything. -/
def parseJSON (text : String) : Except Error JSON :=
  match lex text with
  | .error e => .error e
  | .ok toks =>
    match parseLoop toks (.value []) with
    | .ok (.done v) => .ok v
    | _ => .error Error.SyntaxError

/-! ## Writing a JSON text -/

/-- The lower-case hexadecimal digit of a value below 16. -/
def hexDigit (n : Nat) : Char :=
  if n < 10 then Char.ofNat (48 + n) else Char.ofNat (87 + n)

/-- How the encoder writes one character of a string: the two-character escapes
it knows, `\u00XX` for the other control characters and for `<`, `>`, `&`
(HTML escaping is on in `json.Marshal`), U+2028 and U+2029.  (Older releases write
backspace and form feed as `\u0008` and `\u000c`; the decoder reads both alike.) -/
def escapeChar (c : Char) : List Char :=
  if c = '"' then ['\\', '"']
  else if c = '\\' then ['\\', '\\']
  else if c = '\n' then ['\\', 'n']
  else if c = '\r' then ['\\', 'r']
  else if c = '\t' then ['\\', 't']
  else if c.toNat = 8 then ['\\', 'b']
  else if c.toNat = 12 then ['\\', 'f']
  else if c.toNat < 0x20 ∨ c = '<' ∨ c = '>' ∨ c = '&' then
    ['\\', 'u', '0', '0', hexDigit (c.toNat / 16), hexDigit (c.toNat % 16)]
  else if c.toNat = 0x2028 then ['\\', 'u', '2', '0', '2', '8']
  else if c.toNat = 0x2029 then ['\\', 'u', '2', '0', '2', '9']
  else [c]

/-- A string literal. -/
def quote (s : String) : String :=
  String.mk ('"' :: (s.data.flatMap escapeChar ++ ['"']))

/-- How the encoder writes one character of a Go string: a valid character as
`escapeChar` says, an invalid byte as `\ufffd`. -/
def escapeRune : Option Char → List Char
  | some c => escapeChar c
  | none => ['\\', 'u', 'f', 'f', 'f', 'd']

/-- The string literal the encoder writes for a Go string (`appendString` of
`encoding/json`, with HTML escaping). -/
def quoteBytes (g : GoString) : String :=
  String.mk ('"' :: ((runes g).flatMap escapeRune ++ ['"']))

/-- The decimal rendering of an integer (`strconv.Itoa`, `%d`). -/
def Itoa (i : Int) : String :=
  if i < 0 then "-" ++ Nat.repr i.natAbs else Nat.repr i.natAbs

/-- The entries of a `map[string]string`, a comma before each but the first. -/
def encodeEntries (first : Bool) : List (GoString × GoString) → String
  | [] => ""
  | (k, v) :: es =>
    (if first then "" else ",") ++ quoteBytes k ++ ":" ++ quoteBytes v ++ encodeEntries false es

mutual
/-- The compact text of a document, as `json.Marshal` writes it. -/
def encode : JSON → String
  | .null => "null"
  | .bool true => "true"
  | .bool false => "false"
  | .num n => Itoa n
  | .numLit raw => raw
  | .str s => quote s
  | .bytes g => quoteBytes g
  | .bytesMap es => "\x7b" ++ encodeEntries true es ++ "\x7d"
  | .arr es => "[" ++ encodeElems true es ++ "]"
  | .obj ms => "\x7b" ++ encodeMembers true ms ++ "\x7d"
/-- The elements of an array, a comma before each but the first. -/
def encodeElems (first : Bool) : List JSON → String
  | [] => ""
  | e :: es => (if first then "" else ",") ++ encode e ++ encodeElems false es
/-- The members of an object, a comma before each but the first. -/
def encodeMembers (first : Bool) : List (String × JSON) → String
  | [] => ""
  | (k, v) :: ms => (if first then "" else ",") ++ quote k ++ ":" ++ encode v ++ encodeMembers false ms
end

/-! ## What the two files use and do not define -/

/-- A `time.Time` value, as the civil date and time it shows and its zone offset
in seconds east of UTC.  The zero value is January 1, year 1, 00:00:00 UTC. -/
structure Time where
  year : Int := 1
  month : Nat := 1
  day : Nat := 1
  hour : Nat := 0
  minute : Nat := 0
  second : Nat := 0
  nanosecond : Nat := 0
  offset : Int := 0
  deriving DecidableEq, Repr

/-- Modelled from the spec: the pagination structure `Meta` is declared in another
file of the package; the spec gives its fields (current page, total pages, per
page, total, links by relation name) and not its JSON keys. -/
structure Meta where
  currentPage : Int := 0
  totalPages : Int := 0
  perPage : Int := 0
  total : Int := 0
  links : List (String × String) := []
  deriving DecidableEq, Repr

/-- What decoding a value into a target leaves behind: the target as it now is,
the first recorded error (`savedError`: decoding went on after it), and the error
that stopped decoding, if one did. -/
structure Decoded (α : Type) where
  val : α
  saved : Option Error
  hard : Option Error := none

def Decoded.map {α β : Type} (f : α → β) (r : Decoded α) : Decoded β :=
  ⟨f r.val, r.saved, r.hard⟩

/-- A decoder stores a document into a target, given the error recorded so far. -/
abbrev Decoder (α : Type) := JSON → α → Option Error → Decoded α

/-- The behaviour the accessors inherit from code outside the two files:
`Time.MarshalJSON` (the RFC 3339 text, or an error), `Time.UnmarshalJSON` (the
time it leaves in the target and its error), and the decoding of a `Meta`, whose
struct tags are not in these files.  Theorems hold for every `Env`. -/
structure Env where
  timeMarshalJSON : Time → Except Error String
  timeUnmarshalJSON : JSON → Time → Time × Option Error
  decodeMeta : Decoder Meta

/-! ## Decoding: `json.Unmarshal` -/

/-- Records an error unless one is recorded already (`decodeState.saveError`). -/
def saveError (saved : Option Error) (e : Error) : Option Error :=
  match saved with
  | some s => some s
  | none => some e

/-- The `Value` of an `UnmarshalTypeError` for a document that does not fit. -/
def kindOf : JSON → String
  | .null => "null"
  | .bool _ => "bool"
  | .num _ => "number"
  | .numLit _ => "number"
  | .str _ => "string"
  | .bytes _ => "string"
  | .bytesMap _ => "object"
  | .arr _ => "array"
  | .obj _ => "object"

/-- A value of the 64-bit `int`. -/
def isInt (n : Int) : Bool := -9223372036854775808 ≤ n ∧ n ≤ 9223372036854775807

/-- Into a `string`: a string is stored, `null` changes nothing, anything else is
recorded as a type error. -/
def decodeString : Decoder String
  | .str x, _, s => ⟨x, s, none⟩
  | .null, a, s => ⟨a, s, none⟩
  | j, a, s => ⟨a, saveError s (.UnmarshalTypeError (kindOf j) "string"), none⟩

/-- Into an `int`: an integer literal within range is stored; a number with a
fraction or exponent, or out of range, is recorded as a type error. -/
def decodeInt : Decoder Int
  | .num n, a, s =>
    if isInt n then ⟨n, s, none⟩
    else ⟨a, saveError s (.UnmarshalTypeError ("number " ++ Itoa n) "int"), none⟩
  | .numLit raw, a, s => ⟨a, saveError s (.UnmarshalTypeError ("number " ++ raw) "int"), none⟩
  | .null, a, s => ⟨a, s, none⟩
  | j, a, s => ⟨a, saveError s (.UnmarshalTypeError (kindOf j) "int"), none⟩

/-- Into a `bool`. -/
def decodeBool : Decoder Bool
  | .bool b, _, s => ⟨b, s, none⟩
  | .null, a, s => ⟨a, s, none⟩
  | j, a, s => ⟨a, saveError s (.UnmarshalTypeError (kindOf j) "bool"), none⟩

/-- Into an `interface{}`: any document is stored (`null` is the nil interface). -/
def decodeAny : Decoder JSON
  | j, _, s => ⟨j, s, none⟩

/-- Into a `time.Time`: the document goes to `UnmarshalJSON`, whose error stops
decoding. -/
def decodeTime (env : Env) : Decoder Time
  | j, t, s => ⟨(env.timeUnmarshalJSON j t).1, s, (env.timeUnmarshalJSON j t).2⟩

/-- Case folding of a key, exact against ASCII field names: lower-case ASCII
letters, the Kelvin sign and the long s fold to `K` and `S`. -/
def foldChar (c : Char) : Char :=
  if 'a' ≤ c ∧ c ≤ 'z' then Char.ofNat (c.toNat - 32)
  else if c.toNat = 0x212A then 'K'
  else if c.toNat = 0x017F then 'S'
  else c

def foldName (s : String) : String := String.mk (s.data.map foldChar)

/-- The field a key selects: the one with exactly that name, else the first one
equal to it under case folding. -/
def findField (names : List String) (key : String) : Option String :=
  match names.find? (fun f => f == key) with
  | some f => some f
  | none => names.find? (fun f => foldName f == foldName key)

/-- The members of an object, in order, into a struct: a member whose key selects
no field is skipped, a later member overwrites an earlier one. -/
def decodeMembers {α : Type} (names : List String) (field : String → Decoder α) :
    List (String × JSON) → α → Option Error → Decoded α
  | [], a, s => ⟨a, s, none⟩
  | (k, v) :: rest, a, s =>
    match findField names k with
    | none => decodeMembers names field rest a s
    | some f =>
      match (field f v a s).hard with
      | some e => ⟨(field f v a s).val, (field f v a s).saved, some e⟩
      | none => decodeMembers names field rest (field f v a s).val (field f v a s).saved

/-- Into a struct: an object is stored member by member, `null` changes nothing,
anything else is recorded as a type error. -/
def decodeStruct {α : Type} (type : String) (names : List String) (field : String → Decoder α) :
    Decoder α
  | .obj ms, a, s => decodeMembers names field ms a s
  | .null, a, s => ⟨a, s, none⟩
  | j, a, s => ⟨a, saveError s (.UnmarshalTypeError (kindOf j) type), none⟩

/-- The elements of an array into a slice whose current elements are `old`: the
element at an index below the current length is decoded in place, the others from
the zero value; the slice ends where the array does.  When an element stops
decoding, what follows it in `old` stays. -/
def decodeElems {α : Type} (zero : α) (dec : Decoder α) :
    List JSON → List α → Option Error → Decoded (List α)
  | [], _, s => ⟨[], s, none⟩
  | e :: es, old, s =>
    match (dec e (old.headD zero) s).hard with
    | some err => ⟨(dec e (old.headD zero) s).val :: old.tail, (dec e (old.headD zero) s).saved, some err⟩
    | none =>
      ((decodeElems zero dec es old.tail (dec e (old.headD zero) s).saved).map
        (fun l => (dec e (old.headD zero) s).val :: l))

/-- Into a slice (`none` is the nil slice): an array is stored element by element,
`null` makes the slice nil, anything else is recorded as a type error. -/
def decodeSlice {α : Type} (type : String) (zero : α) (dec : Decoder α) :
    Decoder (Option (List α))
  | .arr es, old, s => (decodeElems zero dec es (old.getD []) s).map some
  | .null, _, s => ⟨none, s, none⟩
  | j, old, s => ⟨old, saveError s (.UnmarshalTypeError (kindOf j) type), none⟩

/-- Sets a key of a map kept as a list of entries with distinct keys. -/
def mapSet (m : List (String × String)) (k v : String) : List (String × String) :=
  m.filter (fun kv => kv.1 != k) ++ [(k, v)]

/-- The members of an object into a `map[string]string`: each value is decoded
into a fresh string, which is stored under the key even when the value did not
fit. -/
def decodeMapMembers : List (String × JSON) → List (String × String) → Option Error →
    Decoded (List (String × String))
  | [], m, s => ⟨m, s, none⟩
  | (k, v) :: rest, m, s =>
    decodeMapMembers rest (mapSet m k (decodeString v "" s).val) (decodeString v "" s).saved

/-- Into a `map[string]string` (`none` is the nil map). -/
def decodeMap : Decoder (Option (List (String × String)))
  | .obj ms, old, s => (decodeMapMembers ms (old.getD []) s).map some
  | .null, _, s => ⟨none, s, none⟩
  | j, old, s => ⟨old, saveError s (.UnmarshalTypeError (kindOf j) "map[string]string"), none⟩

/-- The call `json.Unmarshal(data, &v)`: the text is checked first, and an invalid text
leaves `v` as it was; otherwise the document is stored into `v`, and the error is
the one that stopped decoding, else the first one recorded. -/
def Unmarshal {α : Type} (dec : Decoder α) (data : String) (v : α) : α × Option Error :=
  match parseJSON data with
  | .error e => (v, some e)
  | .ok j =>
    ((dec j v none).val,
      match (dec j v none).hard with
      | some e => some e
      | none => (dec j v none).saved)

/-! ## The structures of `appServer.go` -/

/-- The struct `ServerLimits`. -/
structure ServerLimits where
  Memory : Int := 0
  Swap : Int := 0
  Disk : Int := 0
  Io : Int := 0
  CPU : Int := 0
  deriving DecidableEq, Repr

/-- The struct `ServerFeatureLimits`. -/
structure ServerFeatureLimits where
  Databases : Int := 0
  Allocations : Int := 0
  deriving DecidableEq, Repr

/-- The struct `ServerContainer`. -/
structure ServerContainer where
  StartupCommand : String := ""
  Image : String := ""
  Installed : Bool := false
  Environment : Option (List (String × String)) := none
  deriving DecidableEq, Repr

/-- The struct `ServerRelDataAttributes`. -/
structure ServerRelDataAttributes where
  ID : Int := 0
  IP : String := ""
  Alias : JSON := .null
  Port : Int := 0
  Assigned : Bool := false
  deriving Repr

/-- The struct `ServerRelData`. -/
structure ServerRelData where
  Object : String := ""
  Attributes : ServerRelDataAttributes := {}
  deriving Repr

/-- The anonymous struct of the field `Allocations` of `ServerRelationship`. -/
structure ServerRelAllocations where
  Object : String := ""
  Data : Option (List ServerRelData) := none
  deriving Repr

/-- The struct `ServerRelationship`. -/
structure ServerRelationship where
  Allocations : ServerRelAllocations := {}
  deriving Repr

/-- The struct `ServerAllocation`. -/
structure ServerAllocation where
  Default : Int := 0
  deriving DecidableEq, Repr

/-- The struct `ServerAttributes`. -/
structure ServerAttributes where
  ID : Int := 0
  ExternalID : JSON := .null
  UUID : String := ""
  Identifier : String := ""
  Name : String := ""
  Description : String := ""
  Suspended : Bool := false
  Limits : ServerLimits := {}
  FeatureLimits : ServerFeatureLimits := {}
  User : Int := 0
  Node : Int := 0
  Allocation : Int := 0
  Nest : Int := 0
  Egg : Int := 0
  Pack : JSON := .null
  Container : ServerContainer := {}
  Relationships : ServerRelationship := {}
  UpdatedAt : Time := {}
  CreatedAt : Time := {}
  deriving Repr

/-- The struct `Server`. -/
structure Server where
  Object : String := ""
  Attributes : ServerAttributes := {}
  deriving Repr

/-- The struct `Servers`. -/
structure Servers where
  Object : String := ""
  Server : Option (List Server) := none
  Meta : Meta := {}
  deriving Repr

/-- The struct `ServerChange`, the argument a caller hands in: its strings are Go
strings, byte sequences that need not be valid UTF-8. -/
structure ServerChange where
  Name : GoString := []
  User : Int := 0
  Egg : Int := 0
  DockerImage : GoString := []
  Startup : GoString := []
  Environment : Option (List (GoString × GoString)) := none
  Limits : ServerLimits := {}
  FeatureLimits : ServerFeatureLimits := {}
  Allocation : ServerAllocation := {}
  deriving DecidableEq, Repr

/-! ## The structures of `appUser.go` -/

/-- The struct `UserAttributes`. -/
structure UserAttributes where
  ID : Int := 0
  ExternalID : String := ""
  UUID : String := ""
  Username : String := ""
  Email : String := ""
  FirstName : String := ""
  LastName : String := ""
  Language : String := ""
  RootAdmin : Bool := false
  TwoFa : Bool := false
  Password : String := ""
  CreatedAt : Time := {}
  UpdatedAt : Time := {}
  deriving DecidableEq, Repr

/-- The struct `User`. -/
structure User where
  Object : String := ""
  Attributes : UserAttributes := {}
  deriving DecidableEq, Repr

/-- The struct `Users`. -/
structure Users where
  Object : String := ""
  User : Option (List User) := none
  Meta : Meta := {}
  deriving DecidableEq, Repr

/-! ## Decoders of the structures, from their `json` tags -/

def ServerLimits.names : List String := ["memory", "swap", "disk", "io", "cpu"]

def ServerLimits.field (f : String) : Decoder ServerLimits := fun j a s =>
  match f with
  | "memory" => (decodeInt j a.Memory s).map (fun x => { a with Memory := x })
  | "swap" => (decodeInt j a.Swap s).map (fun x => { a with Swap := x })
  | "disk" => (decodeInt j a.Disk s).map (fun x => { a with Disk := x })
  | "io" => (decodeInt j a.Io s).map (fun x => { a with Io := x })
  | "cpu" => (decodeInt j a.CPU s).map (fun x => { a with CPU := x })
  | _ => ⟨a, s, none⟩

def ServerLimits.decode : Decoder ServerLimits :=
  decodeStruct "crocgodyl.ServerLimits" ServerLimits.names ServerLimits.field

def ServerFeatureLimits.names : List String := ["databases", "allocations"]

def ServerFeatureLimits.field (f : String) : Decoder ServerFeatureLimits := fun j a s =>
  match f with
  | "databases" => (decodeInt j a.Databases s).map (fun x => { a with Databases := x })
  | "allocations" => (decodeInt j a.Allocations s).map (fun x => { a with Allocations := x })
  | _ => ⟨a, s, none⟩

def ServerFeatureLimits.decode : Decoder ServerFeatureLimits :=
  decodeStruct "crocgodyl.ServerFeatureLimits" ServerFeatureLimits.names ServerFeatureLimits.field

def ServerContainer.names : List String := ["startup_command", "image", "installed", "environment"]

def ServerContainer.field (f : String) : Decoder ServerContainer := fun j a s =>
  match f with
  | "startup_command" => (decodeString j a.StartupCommand s).map (fun x => { a with StartupCommand := x })
  | "image" => (decodeString j a.Image s).map (fun x => { a with Image := x })
  | "installed" => (decodeBool j a.Installed s).map (fun x => { a with Installed := x })
  | "environment" => (decodeMap j a.Environment s).map (fun x => { a with Environment := x })
  | _ => ⟨a, s, none⟩

def ServerContainer.decode : Decoder ServerContainer :=
  decodeStruct "crocgodyl.ServerContainer" ServerContainer.names ServerContainer.field

def ServerRelDataAttributes.names : List String := ["id", "ip", "alias", "port", "assigned"]

def ServerRelDataAttributes.field (f : String) : Decoder ServerRelDataAttributes := fun j a s =>
  match f with
  | "id" => (decodeInt j a.ID s).map (fun x => { a with ID := x })
  | "ip" => (decodeString j a.IP s).map (fun x => { a with IP := x })
  | "alias" => (decodeAny j a.Alias s).map (fun x => { a with Alias := x })
  | "port" => (decodeInt j a.Port s).map (fun x => { a with Port := x })
  | "assigned" => (decodeBool j a.Assigned s).map (fun x => { a with Assigned := x })
  | _ => ⟨a, s, none⟩

def ServerRelDataAttributes.decode : Decoder ServerRelDataAttributes :=
  decodeStruct "crocgodyl.ServerRelDataAttributes" ServerRelDataAttributes.names
    ServerRelDataAttributes.field

def ServerRelData.names : List String := ["object", "attributes"]

def ServerRelData.field (f : String) : Decoder ServerRelData := fun j a s =>
  match f with
  | "object" => (decodeString j a.Object s).map (fun x => { a with Object := x })
  | "attributes" =>
    (ServerRelDataAttributes.decode j a.Attributes s).map (fun x => { a with Attributes := x })
  | _ => ⟨a, s, none⟩

def ServerRelData.decode : Decoder ServerRelData :=
  decodeStruct "crocgodyl.ServerRelData" ServerRelData.names ServerRelData.field

def ServerRelAllocations.names : List String := ["object", "data"]

def ServerRelAllocations.field (f : String) : Decoder ServerRelAllocations := fun j a s =>
  match f with
  | "object" => (decodeString j a.Object s).map (fun x => { a with Object := x })
  | "data" =>
    (decodeSlice "[]crocgodyl.ServerRelData" {} ServerRelData.decode j a.Data s).map
      (fun x => { a with Data := x })
  | _ => ⟨a, s, none⟩

def ServerRelAllocations.decode : Decoder ServerRelAllocations :=
  decodeStruct "struct \x7b Object string; Data []crocgodyl.ServerRelData \x7d"
    ServerRelAllocations.names ServerRelAllocations.field

def ServerRelationship.names : List String := ["allocations"]

def ServerRelationship.field (f : String) : Decoder ServerRelationship := fun j a s =>
  match f with
  | "allocations" =>
    (ServerRelAllocations.decode j a.Allocations s).map (fun x => { a with Allocations := x })
  | _ => ⟨a, s, none⟩

def ServerRelationship.decode : Decoder ServerRelationship :=
  decodeStruct "crocgodyl.ServerRelationship" ServerRelationship.names ServerRelationship.field

def ServerAttributes.names : List String :=
  ["id", "external_id", "uuid", "identifier", "name", "description", "suspended", "limits",
   "feature_limits", "user", "node", "allocation", "nest", "egg", "pack", "container",
   "relationships", "updated_at", "created_at"]

def ServerAttributes.field (env : Env) (f : String) : Decoder ServerAttributes := fun j a s =>
  match f with
  | "id" => (decodeInt j a.ID s).map (fun x => { a with ID := x })
  | "external_id" => (decodeAny j a.ExternalID s).map (fun x => { a with ExternalID := x })
  | "uuid" => (decodeString j a.UUID s).map (fun x => { a with UUID := x })
  | "identifier" => (decodeString j a.Identifier s).map (fun x => { a with Identifier := x })
  | "name" => (decodeString j a.Name s).map (fun x => { a with Name := x })
  | "description" => (decodeString j a.Description s).map (fun x => { a with Description := x })
  | "suspended" => (decodeBool j a.Suspended s).map (fun x => { a with Suspended := x })
  | "limits" => (ServerLimits.decode j a.Limits s).map (fun x => { a with Limits := x })
  | "feature_limits" =>
    (ServerFeatureLimits.decode j a.FeatureLimits s).map (fun x => { a with FeatureLimits := x })
  | "user" => (decodeInt j a.User s).map (fun x => { a with User := x })
  | "node" => (decodeInt j a.Node s).map (fun x => { a with Node := x })
  | "allocation" => (decodeInt j a.Allocation s).map (fun x => { a with Allocation := x })
  | "nest" => (decodeInt j a.Nest s).map (fun x => { a with Nest := x })
  | "egg" => (decodeInt j a.Egg s).map (fun x => { a with Egg := x })
  | "pack" => (decodeAny j a.Pack s).map (fun x => { a with Pack := x })
  | "container" => (ServerContainer.decode j a.Container s).map (fun x => { a with Container := x })
  | "relationships" =>
    (ServerRelationship.decode j a.Relationships s).map (fun x => { a with Relationships := x })
  | "updated_at" => (decodeTime env j a.UpdatedAt s).map (fun x => { a with UpdatedAt := x })
  | "created_at" => (decodeTime env j a.CreatedAt s).map (fun x => { a with CreatedAt := x })
  | _ => ⟨a, s, none⟩

def ServerAttributes.decode (env : Env) : Decoder ServerAttributes :=
  decodeStruct "crocgodyl.ServerAttributes" ServerAttributes.names (ServerAttributes.field env)

def Server.names : List String := ["object", "attributes"]

def Server.field (env : Env) (f : String) : Decoder Server := fun j a s =>
  match f with
  | "object" => (decodeString j a.Object s).map (fun x => { a with Object := x })
  | "attributes" =>
    (ServerAttributes.decode env j a.Attributes s).map (fun x => { a with Attributes := x })
  | _ => ⟨a, s, none⟩

def Server.decode (env : Env) : Decoder Server :=
  decodeStruct "crocgodyl.Server" Server.names (Server.field env)

def Servers.names : List String := ["object", "data", "meta"]

def Servers.field (env : Env) (f : String) : Decoder Servers := fun j a s =>
  match f with
  | "object" => (decodeString j a.Object s).map (fun x => { a with Object := x })
  | "data" =>
    (decodeSlice "[]crocgodyl.Server" {} (Server.decode env) j a.Server s).map
      (fun x => { a with Server := x })
  | "meta" => (env.decodeMeta j a.Meta s).map (fun x => { a with Meta := x })
  | _ => ⟨a, s, none⟩

def Servers.decode (env : Env) : Decoder Servers :=
  decodeStruct "crocgodyl.Servers" Servers.names (Servers.field env)

def UserAttributes.names : List String :=
  ["id", "external_id", "uuid", "username", "email", "first_name", "last_name", "language",
   "root_admin", "2fa", "password", "created_at", "updated_at"]

def UserAttributes.field (env : Env) (f : String) : Decoder UserAttributes := fun j a s =>
  match f with
  | "id" => (decodeInt j a.ID s).map (fun x => { a with ID := x })
  | "external_id" => (decodeString j a.ExternalID s).map (fun x => { a with ExternalID := x })
  | "uuid" => (decodeString j a.UUID s).map (fun x => { a with UUID := x })
  | "username" => (decodeString j a.Username s).map (fun x => { a with Username := x })
  | "email" => (decodeString j a.Email s).map (fun x => { a with Email := x })
  | "first_name" => (decodeString j a.FirstName s).map (fun x => { a with FirstName := x })
  | "last_name" => (decodeString j a.LastName s).map (fun x => { a with LastName := x })
  | "language" => (decodeString j a.Language s).map (fun x => { a with Language := x })
  | "root_admin" => (decodeBool j a.RootAdmin s).map (fun x => { a with RootAdmin := x })
  | "2fa" => (decodeBool j a.TwoFa s).map (fun x => { a with TwoFa := x })
  | "password" => (decodeString j a.Password s).map (fun x => { a with Password := x })
  | "created_at" => (decodeTime env j a.CreatedAt s).map (fun x => { a with CreatedAt := x })
  | "updated_at" => (decodeTime env j a.UpdatedAt s).map (fun x => { a with UpdatedAt := x })
  | _ => ⟨a, s, none⟩

def UserAttributes.decode (env : Env) : Decoder UserAttributes :=
  decodeStruct "crocgodyl.UserAttributes" UserAttributes.names (UserAttributes.field env)

def User.names : List String := ["object", "attributes"]

def User.field (env : Env) (f : String) : Decoder User := fun j a s =>
  match f with
  | "object" => (decodeString j a.Object s).map (fun x => { a with Object := x })
  | "attributes" =>
    (UserAttributes.decode env j a.Attributes s).map (fun x => { a with Attributes := x })
  | _ => ⟨a, s, none⟩

def User.decode (env : Env) : Decoder User :=
  decodeStruct "crocgodyl.User" User.names (User.field env)

def Users.names : List String := ["object", "data", "meta"]

def Users.field (env : Env) (f : String) : Decoder Users := fun j a s =>
  match f with
  | "object" => (decodeString j a.Object s).map (fun x => { a with Object := x })
  | "data" =>
    (decodeSlice "[]crocgodyl.User" {} (User.decode env) j a.User s).map
      (fun x => { a with User := x })
  | "meta" => (env.decodeMeta j a.Meta s).map (fun x => { a with Meta := x })
  | _ => ⟨a, s, none⟩

def Users.decode (env : Env) : Decoder Users :=
  decodeStruct "crocgodyl.Users" Users.names (Users.field env)

/-- Into a `[]int`, the target of `GetServerAllocations`. -/
def decodeIntSlice : Decoder (Option (List Int)) :=
  decodeSlice "[]int" 0 decodeInt

/-! ## Encoding: `json.Marshal` -/

/-- An `int` field tagged `omitempty`: left out when zero. -/
def intMember (key : String) (n : Int) : List (String × JSON) :=
  if n = 0 then [] else [(key, .num n)]

/-- A `string` field tagged `omitempty`: left out when empty. -/
def strMember (key : String) (x : String) : List (String × JSON) :=
  if x = "" then [] else [(key, .str x)]

/-- A `string` field tagged `omitempty`, given as a Go string: left out when it
has no byte. -/
def bytesMember (key : String) (g : GoString) : List (String × JSON) :=
  if g = [] then [] else [(key, .bytes g)]

/-- A `bool` field tagged `omitempty`: left out when false. -/
def boolMember (key : String) (b : Bool) : List (String × JSON) :=
  if b then [(key, .bool true)] else []

/-- The order `<` of Go strings: byte by byte, a proper prefix first. -/
def lessBytes : GoString → GoString → Bool
  | [], [] => false
  | [], _ :: _ => true
  | _ :: _, [] => false
  | a :: x, b :: y => if a.val < b.val then true else if b.val < a.val then false else lessBytes x y

/-- Puts an entry before the first entry with a greater key. -/
def insertByKey (e : GoString × GoString) :
    List (GoString × GoString) → List (GoString × GoString)
  | [] => [e]
  | x :: xs => if lessBytes e.1 x.1 then e :: x :: xs else x :: insertByKey e xs

/-- The entries of a map in the order the encoder writes them: sorted by key. -/
def sortByKey : List (GoString × GoString) → List (GoString × GoString)
  | [] => []
  | x :: xs => insertByKey x (sortByKey xs)

/-- A `map[string]string` field tagged `omitempty`: left out when it has no entry. -/
def mapMember (key : String) (m : Option (List (GoString × GoString))) :
    List (String × JSON) :=
  match m with
  | none => []
  | some [] => []
  | some es => [(key, .bytesMap (sortByKey es))]

/-- The document of a `ServerLimits`: every field is an `int` tagged `omitempty`. -/
def ServerLimits.toJSON (l : ServerLimits) : JSON :=
  .obj (intMember "memory" l.Memory ++ intMember "swap" l.Swap ++ intMember "disk" l.Disk ++
    intMember "io" l.Io ++ intMember "cpu" l.CPU)

/-- The document of a `ServerFeatureLimits`. -/
def ServerFeatureLimits.toJSON (l : ServerFeatureLimits) : JSON :=
  .obj (intMember "databases" l.Databases ++ intMember "allocations" l.Allocations)

/-- The document of a `ServerAllocation`. -/
def ServerAllocation.toJSON (a : ServerAllocation) : JSON :=
  .obj (intMember "default" a.Default)

/-- The members `json.Marshal` writes for a `ServerChange`.  `omitempty` has no
effect on the three struct-typed fields, which are always written. -/
def ServerChange.members (c : ServerChange) : List (String × JSON) :=
  bytesMember "name" c.Name ++ intMember "user" c.User ++ intMember "egg" c.Egg ++
  bytesMember "docker_image" c.DockerImage ++ bytesMember "startup" c.Startup ++
  mapMember "environment" c.Environment ++
  [("limits", c.Limits.toJSON), ("feature_limits", c.FeatureLimits.toJSON),
   ("allocation", c.Allocation.toJSON)]

/-- The document of a `ServerChange`; no field of it can fail to encode. -/
def ServerChange.toJSON (c : ServerChange) : Except Error JSON :=
  .ok (.obj c.members)

/-- The members written for a `UserAttributes` ahead of the two times. -/
def UserAttributes.members (u : UserAttributes) : List (String × JSON) :=
  intMember "id" u.ID ++ strMember "external_id" u.ExternalID ++ strMember "uuid" u.UUID ++
  strMember "username" u.Username ++ strMember "email" u.Email ++
  strMember "first_name" u.FirstName ++ strMember "last_name" u.LastName ++
  strMember "language" u.Language ++ boolMember "root_admin" u.RootAdmin ++
  boolMember "2fa" u.TwoFa ++ strMember "password" u.Password

/-- The document for a `UserAttributes`: `omitempty` has no effect on the two
`time.Time` fields, which are always written through `MarshalJSON`; its error
fails the whole encoding. -/
def UserAttributes.toJSON (env : Env) (u : UserAttributes) : Except Error JSON :=
  match env.timeMarshalJSON u.CreatedAt with
  | .error e => .error e
  | .ok created =>
    match env.timeMarshalJSON u.UpdatedAt with
    | .error e => .error e
    | .ok updated =>
      .ok (.obj (u.members ++ [("created_at", .str created), ("updated_at", .str updated)]))

/-- The call `json.Marshal(v)`: the compact text of the document of `v`. -/
def Marshal {α : Type} (toJSON : α → Except Error JSON) (v : α) : Except Error String :=
  match toJSON v with
  | .error e => .error e
  | .ok j => .ok (encode j)

/-! ## The dispatcher -/

/-- A request handed to the dispatcher: `queryPanelAPI(path, verb, body)`, where
`none` is the nil body. -/
structure Request where
  path : String
  verb : String
  body : Option String
  deriving DecidableEq, Repr

/-- What the dispatcher returns: the response bytes and the error. -/
structure Reply where
  body : String
  err : Option Error
  deriving DecidableEq, Repr

/-- The panel as the accessors meet it: how the dispatcher answers a request
(which may depend on the requests before it) and the requests made so far. -/
structure Panel where
  answer : List Request → Request → Reply
  log : List Request

/-- The dispatcher `queryPanelAPI` is defined in another file of the package: here
it returns what the panel answers and records the request. -/
def queryPanelAPI (path : String) (verb : String) (body : Option String) (p : Panel) :
    Reply × Panel :=
  (p.answer p.log ⟨path, verb, body⟩, { p with log := p.log ++ [⟨path, verb, body⟩] })

/-! ## `appServer.go` -/

/-- The function `GetServers` (appServer.go, line 112): one GET of `servers`,
unmarshalled into a `Servers`. -/
def GetServers (env : Env) (p : Panel) : (Servers × Option Error) × Panel :=
  let servers : Servers := {}
  let r := queryPanelAPI "servers" "get" none p
  match r.1.err with
  | some err => ((servers, some err), r.2)
  | none =>
    match Unmarshal (Servers.decode env) r.1.body servers with
    | (servers, some err) => ((servers, some err), r.2)
    | (servers, none) => ((servers, none), r.2)

/-- The function `GetServer` (appServer.go, line 132): one GET of `servers/{id}`,
unmarshalled into a `Server`. -/
def GetServer (env : Env) (serverid : Int) (p : Panel) : (Server × Option Error) × Panel :=
  let server : Server := {}
  let r := queryPanelAPI ("servers/" ++ Itoa serverid) "get" none p
  match r.1.err with
  | some err => ((server, some err), r.2)
  | none =>
    match Unmarshal (Server.decode env) r.1.body server with
    | (server, some err) => ((server, some err), r.2)
    | (server, none) => ((server, none), r.2)

/-- The function `GetServerAllocations` (appServer.go, line 152): one GET of
`servers/{id}?include=allocations`, unmarshalled into a `[]int`. -/
def GetServerAllocations (serverid : Int) (p : Panel) :
    (Option (List Int) × Option Error) × Panel :=
  let allServerAlloc : Option (List Int) := none
  let r := queryPanelAPI ("servers/" ++ Itoa serverid ++ "?include=allocations") "get" none p
  match r.1.err with
  | some err => ((allServerAlloc, some err), r.2)
  | none =>
    match Unmarshal decodeIntSlice r.1.body allServerAlloc with
    | (allServerAlloc, some err) => ((allServerAlloc, some err), r.2)
    | (allServerAlloc, none) => ((allServerAlloc, none), r.2)

/-- The function `CreateServer` (appServer.go, line 173): the ServerChange is marshalled
and POSTed to `servers`; the response is unmarshalled into a `Server`. -/
def CreateServer (env : Env) (newServer : ServerChange) (p : Panel) :
    (Server × Option Error) × Panel :=
  let serverDetails : Server := {}
  match Marshal ServerChange.toJSON newServer with
  | .error err => ((serverDetails, some err), p)
  | .ok nsbytes =>
    let r := queryPanelAPI "servers" "post" (some nsbytes) p
    match r.1.err with
    | some err => ((serverDetails, some err), r.2)
    | none =>
      match Unmarshal (Server.decode env) r.1.body serverDetails with
      | (serverDetails, some err) => ((serverDetails, some err), r.2)
      | (serverDetails, none) => ((serverDetails, none), r.2)

/-- The function `EditServerDetails` (appServer.go, line 199): the ServerChange is
marshalled and PATCHed to `servers/{id}/details`. -/
def EditServerDetails (env : Env) (newServer : ServerChange) (serverid : Int) (p : Panel) :
    (Server × Option Error) × Panel :=
  let serverDetails : Server := {}
  match Marshal ServerChange.toJSON newServer with
  | .error err => ((serverDetails, some err), p)
  | .ok esbytes =>
    let r := queryPanelAPI ("servers/" ++ Itoa serverid ++ "/details") "patch" (some esbytes) p
    match r.1.err with
    | some err => ((serverDetails, some err), r.2)
    | none =>
      match Unmarshal (Server.decode env) r.1.body serverDetails with
      | (serverDetails, some err) => ((serverDetails, some err), r.2)
      | (serverDetails, none) => ((serverDetails, none), r.2)

/-- The function `EditServerBuild` (appServer.go, line 227): the ServerChange is
marshalled and PATCHed to `servers/{id}/build`. -/
def EditServerBuild (env : Env) (newServer : ServerChange) (serverid : Int) (p : Panel) :
    (Server × Option Error) × Panel :=
  let serverDetails : Server := {}
  match Marshal ServerChange.toJSON newServer with
  | .error err => ((serverDetails, some err), p)
  | .ok esbytes =>
    let r := queryPanelAPI ("servers/" ++ Itoa serverid ++ "/build") "patch" (some esbytes) p
    match r.1.err with
    | some err => ((serverDetails, some err), r.2)
    | none =>
      match Unmarshal (Server.decode env) r.1.body serverDetails with
      | (serverDetails, some err) => ((serverDetails, some err), r.2)
      | (serverDetails, none) => ((serverDetails, none), r.2)

/-- The function `EditServerStartup` (appServer.go, line 253): the ServerChange is
marshalled and PATCHed to `servers/{id}/startup`. -/
def EditServerStartup (env : Env) (newServer : ServerChange) (serverid : Int) (p : Panel) :
    (Server × Option Error) × Panel :=
  let serverDetails : Server := {}
  match Marshal ServerChange.toJSON newServer with
  | .error err => ((serverDetails, some err), p)
  | .ok esbytes =>
    let r := queryPanelAPI ("servers/" ++ Itoa serverid ++ "/startup") "patch" (some esbytes) p
    match r.1.err with
    | some err => ((serverDetails, some err), r.2)
    | none =>
      match Unmarshal (Server.decode env) r.1.body serverDetails with
      | (serverDetails, some err) => ((serverDetails, some err), r.2)
      | (serverDetails, none) => ((serverDetails, none), r.2)

/-- The function `DeleteServer` (appServer.go, line 279): one DELETE of `servers/{id}`;
only the error is returned. -/
def DeleteServer (serverid : Int) (p : Panel) : Option Error × Panel :=
  let r := queryPanelAPI ("servers/" ++ Itoa serverid) "delete" none p
  match r.1.err with
  | some err => (some err, r.2)
  | none => (none, r.2)

/-! ## `appUser.go` -/

/-- The function `GetUsers` (appUser.go, line 46): one GET of `users`, unmarshalled into
a `Users`. -/
def GetUsers (env : Env) (p : Panel) : (Users × Option Error) × Panel :=
  let users : Users := {}
  let r := queryPanelAPI "users" "get" none p
  match r.1.err with
  | some err => ((users, some err), r.2)
  | none =>
    match Unmarshal (Users.decode env) r.1.body users with
    | (users, some err) => ((users, some err), r.2)
    | (users, none) => ((users, none), r.2)

/-- The function `GetUser` (appUser.go, line 65): one GET of `users/{id}`
(`fmt.Sprintf("users/%d", userID)`), unmarshalled into a `User`. -/
def GetUser (env : Env) (userID : Int) (p : Panel) : (User × Option Error) × Panel :=
  let user : User := {}
  let endpoint := "users/" ++ Itoa userID
  let r := queryPanelAPI endpoint "get" none p
  match r.1.err with
  | some err => ((user, some err), r.2)
  | none =>
    match Unmarshal (User.decode env) r.1.body user with
    | (user, some err) => ((user, some err), r.2)
    | (user, none) => ((user, none), r.2)

/-- The function `GetUserByExternal` (appUser.go, line 86): one GET of
`users/{externalID}` (`fmt.Sprintf("users/%s", externalID)`). -/
def GetUserByExternal (env : Env) (externalID : String) (p : Panel) :
    (User × Option Error) × Panel :=
  let user : User := {}
  let endpoint := "users/" ++ externalID
  let r := queryPanelAPI endpoint "get" none p
  match r.1.err with
  | some err => ((user, some err), r.2)
  | none =>
    match Unmarshal (User.decode env) r.1.body user with
    | (user, some err) => ((user, some err), r.2)
    | (user, none) => ((user, none), r.2)

/-- The function `GetUserByPage` (appUser.go, line 107): one GET of `users/{pageID}`
(`fmt.Sprintf("users/%d", pageID)`). -/
def GetUserByPage (env : Env) (pageID : Int) (p : Panel) : (User × Option Error) × Panel :=
  let user : User := {}
  let endpoint := "users/" ++ Itoa pageID
  let r := queryPanelAPI endpoint "get" none p
  match r.1.err with
  | some err => ((user, some err), r.2)
  | none =>
    match Unmarshal (User.decode env) r.1.body user with
    | (user, some err) => ((user, some err), r.2)
    | (user, none) => ((user, none), r.2)

/-- The function `CreateUser` (appUser.go, line 127): the UserAttributes is marshalled
and POSTed to `users`. -/
def CreateUser (env : Env) (newUser : UserAttributes) (p : Panel) :
    (User × Option Error) × Panel :=
  let userDetails : User := {}
  match Marshal (UserAttributes.toJSON env) newUser with
  | .error err => ((userDetails, some err), p)
  | .ok nubytes =>
    let r := queryPanelAPI "users" "post" (some nubytes) p
    match r.1.err with
    | some err => ((userDetails, some err), r.2)
    | none =>
      match Unmarshal (User.decode env) r.1.body userDetails with
      | (userDetails, some err) => ((userDetails, some err), r.2)
      | (userDetails, none) => ((userDetails, none), r.2)

/-- The function `EditUser` (appUser.go, line 154): the UserAttributes is marshalled and
PATCHed to `users/{id}`. -/
def EditUser (env : Env) (editUser : UserAttributes) (userID : Int) (p : Panel) :
    (User × Option Error) × Panel :=
  let userDetails : User := {}
  let endpoint := "users/" ++ Itoa userID
  match Marshal (UserAttributes.toJSON env) editUser with
  | .error err => ((userDetails, some err), p)
  | .ok eubytes =>
    let r := queryPanelAPI endpoint "patch" (some eubytes) p
    match r.1.err with
    | some err => ((userDetails, some err), r.2)
    | none =>
      match Unmarshal (User.decode env) r.1.body userDetails with
      | (userDetails, some err) => ((userDetails, some err), r.2)
      | (userDetails, none) => ((userDetails, none), r.2)

/-- The function `DeleteUser` (appUser.go, line 181): one DELETE of `users/{id}`; only
the error is returned. -/
def DeleteUser (userID : Int) (p : Panel) : Option Error × Panel :=
  let endpoint := "users/" ++ Itoa userID
  let r := queryPanelAPI endpoint "delete" none p
  match r.1.err with
  | some err => (some err, r.2)
  | none => (none, r.2)

/-! ## An environment and inputs to run the accessors on -/

/-- A number in decimal, padded with zeros to `width` digits. -/
def pad (width : Nat) (n : Nat) : String :=
  String.mk (List.replicate (width - (Nat.repr n).length) '0') ++ Nat.repr n

def dropTrailingZeros (cs : List Char) : List Char :=
  (cs.reverse.dropWhile (fun c => c = '0')).reverse

/-- The zone of an RFC 3339 text: `Z` for UTC, else the offset as `±hh:mm`. -/
def zoneText (offset : Int) : String :=
  if offset = 0 then "Z"
  else (if offset < 0 then "-" else "+") ++ pad 2 (offset.natAbs / 3600) ++ ":" ++
    pad 2 (offset.natAbs / 60 % 60)

/-- The method `Time.MarshalJSON`: the RFC 3339 text with nanoseconds, refused when the year
is not four digits wide or the zone hour is above 23. -/
def rfc3339Marshal (t : Time) : Except Error String :=
  if t.year < 0 ∨ 9999 < t.year then
    .error (.Other "Time.MarshalJSON: year outside of range [0,9999]")
  else if 24 ≤ t.offset.natAbs / 3600 then
    .error (.Other "Time.MarshalJSON: timezone hour outside of range [0,23]")
  else
    .ok (pad 4 t.year.natAbs ++ "-" ++ pad 2 t.month ++ "-" ++ pad 2 t.day ++ "T" ++
      pad 2 t.hour ++ ":" ++ pad 2 t.minute ++ ":" ++ pad 2 t.second ++
      (if t.nanosecond = 0 then ""
       else "." ++ String.mk (dropTrailingZeros (pad 9 t.nanosecond).data)) ++
      zoneText t.offset)

/-- Reads `n` digits. -/
def takeNat : Nat → List Char → Option (Nat × List Char)
  | 0, cs => some (0, cs)
  | n + 1, cs =>
    match takeNat n cs with
    | some (v, c :: rest) => if isDigit c then some (v * 10 + (c.toNat - 48), rest) else none
    | _ => none

/-- Reads one given character. -/
def takeChar (c : Char) : List Char → Option (List Char)
  | d :: rest => if d = c then some rest else none
  | [] => none

def daysIn (year : Nat) (month : Nat) : Nat :=
  if month = 2 then (if year % 4 = 0 ∧ (year % 100 ≠ 0 ∨ year % 400 = 0) then 29 else 28)
  else if month = 4 ∨ month = 6 ∨ month = 9 ∨ month = 11 then 30
  else 31

/-- The zone at the end of an RFC 3339 text, in seconds east of UTC. -/
def parseZone : List Char → Option Int
  | ['Z'] => some 0
  | sign :: cs =>
    if sign = '+' ∨ sign = '-' then
      match takeNat 2 cs with
      | some (h, cs1) =>
        match takeChar ':' cs1 with
        | some cs2 =>
          match takeNat 2 cs2 with
          | some (m, []) =>
            if h < 24 ∧ m < 60 then
              some (if sign = '-' then - ((h * 3600 + m * 60 : Nat) : Int) else ((h * 3600 + m * 60 : Nat) : Int))
            else none
          | _ => none
        | none => none
      | none => none
    else none
  | [] => none

/-- The fraction of a second, when there is one, and what follows it. -/
def parseFraction : List Char → Option (Nat × List Char)
  | '.' :: cs =>
    match cs.span isDigit with
    | ([], _) => none
    | (ds, rest) => some (natOfDigits ((ds ++ List.replicate 9 '0').take 9), rest)
  | cs => some (0, cs)

/-- A text in the strict RFC 3339 format. -/
def parseRFC3339 (cs : List Char) : Option Time :=
  match takeNat 4 cs with
  | none => none
  | some (year, c1) =>
  match (takeChar '-' c1).bind (takeNat 2) with
  | none => none
  | some (month, c2) =>
  match (takeChar '-' c2).bind (takeNat 2) with
  | none => none
  | some (day, c3) =>
  match (takeChar 'T' c3).bind (takeNat 2) with
  | none => none
  | some (hour, c4) =>
  match (takeChar ':' c4).bind (takeNat 2) with
  | none => none
  | some (minute, c5) =>
  match (takeChar ':' c5).bind (takeNat 2) with
  | none => none
  | some (second, c6) =>
  match parseFraction c6 with
  | none => none
  | some (nano, c7) =>
  match parseZone c7 with
  | none => none
  | some offset =>
    if 1 ≤ month ∧ month ≤ 12 ∧ 1 ≤ day ∧ day ≤ daysIn year month ∧ hour < 24 ∧ minute < 60 ∧
        second < 60 then
      some ⟨year, month, day, hour, minute, second, nano, offset⟩
    else none

/-- The method `Time.UnmarshalJSON`: `null` changes nothing; a string in the RFC 3339 format
is stored; any other string stores the zero time and fails; a document that is
not a string fails. -/
def rfc3339Unmarshal (j : JSON) (t : Time) : Time × Option Error :=
  match j with
  | .null => (t, none)
  | .str x =>
    match parseRFC3339 x.data with
    | some t' => (t', none)
    | none => ({}, some (.Other "parsing time: not in the RFC 3339 format"))
  | _ => (t, some (.Other "Time.UnmarshalJSON: input is not a JSON string"))

/-- An environment: the RFC 3339 methods of `time.Time`, and a `Meta` none of
whose fields is selected by a key. -/
def stdEnv : Env where
  timeMarshalJSON := rfc3339Marshal
  timeUnmarshalJSON := rfc3339Unmarshal
  decodeMeta := decodeStruct "crocgodyl.Meta" [] (fun _ _ a s => ⟨a, s, none⟩)

/-- A panel that answers every request with the same body and error. -/
def constPanel (body : String) (err : Option Error) : Panel where
  answer := fun _ _ => ⟨body, err⟩
  log := []

/-- The panel error of a create request without a name. -/
def validationError : Error :=
  .Api (.PanelError "ValidationException" "The name field is required.")

/-- The body `{"object":"server","attributes":{"id":42,"name":"Survival","uuid":"abc-123"}}`. -/
def survivalBody : String :=
  "\x7b\"object\":\"server\",\"attributes\":\x7b\"id\":42,\"name\":\"Survival\",\"uuid\":\"abc-123\"\x7d\x7d"

/-- The body `{"object":"server","attributes":{"id":"42","name":"Survival"}}`, whose
`id` is a string. -/
def mistypedBody : String :=
  "\x7b\"object\":\"server\",\"attributes\":\x7b\"id\":\"42\",\"name\":\"Survival\"\x7d\x7d"

/-- The body `<html>Bad Gateway</html>`, which is not a JSON text. -/
def htmlBody : String := "<html>Bad Gateway</html>"

/-- The body `{"object":"server","attributes":{"name":"Survival","egg":5}}`. -/
def echoBody : String :=
  "\x7b\"object\":\"server\",\"attributes\":\x7b\"name\":\"Survival\",\"egg\":5\x7d\x7d"

/-- The payload
`{"name":"Survival","egg":5,"limits":{},"feature_limits":{},"allocation":{}}`. -/
def survivalPayload : String :=
  "\x7b\"name\":\"Survival\",\"egg\":5,\"limits\":\x7b\x7d,\"feature_limits\":\x7b\x7d,\"allocation\":\x7b\x7d\x7d"

/-- A name that is not valid UTF-8: the one byte `0xff`, the Go string `"\xff"`. -/
def invalidName : GoString := [0xff]

/-- The payload
`{"name":"\ufffd","limits":{},"feature_limits":{},"allocation":{}}`. -/
def invalidNamePayload : String :=
  "\x7b\"name\":\"\\ufffd\",\"limits\":\x7b\x7d,\"feature_limits\":\x7b\x7d,\"allocation\":\x7b\x7d\x7d"

/-- The reply `{"object":"server","attributes":{"name":"\ufffd"}}`. -/
def invalidNameEcho : String :=
  "\x7b\"object\":\"server\",\"attributes\":\x7b\"name\":\"\\ufffd\"\x7d\x7d"

/-- The envelope of server 1 with its allocations 5 and 6:
`{"object":"server","attributes":{"id":1,"relationships":{"allocations":{"object":"list","data":[{"object":"allocation","attributes":{"id":5}},{"object":"allocation","attributes":{"id":6}}]}}}}`. -/
def allocationsBody : String :=
  "\x7b\"object\":\"server\",\"attributes\":\x7b\"id\":1,\"relationships\":\x7b\"allocations\":\x7b\"object\":\"list\",\"data\":[\x7b\"object\":\"allocation\",\"attributes\":\x7b\"id\":5\x7d\x7d,\x7b\"object\":\"allocation\",\"attributes\":\x7b\"id\":6\x7d\x7d]\x7d\x7d\x7d\x7d"

/-! ## What an accessor did to the panel -/

/-- A verb in upper case, the way the spec writes verbs. -/
def upper (verb : String) : String := String.mk (verb.data.map Char.toUpper)

/-- Between the two states exactly one request was made, with this path and this
verb (compared without regard to case). -/
def issues (before after : Panel) (path : String) (verb : String) : Prop :=
  ∃ r, after.log = before.log ++ [r] ∧ r.path = path ∧ upper r.verb = verb

/-- The pattern every decoding accessor follows: one request; the dispatcher's
error is returned with the zero-valued entity, else what `json.Unmarshal` makes
of the response in a zero-valued entity. -/
def exchange {α : Type} (dec : Decoder α) (zero : α) (req : Request) (p : Panel) :
    (α × Option Error) × Panel :=
  ((match (p.answer p.log req).err with
    | some e => (zero, some e)
    | none => Unmarshal dec (p.answer p.log req).body zero),
   ⟨p.answer, p.log ++ [req]⟩)

/-- The pattern of the two delete accessors: one request, whose error is returned. -/
def discard (req : Request) (p : Panel) : Option Error × Panel :=
  ((p.answer p.log req).err, ⟨p.answer, p.log ++ [req]⟩)

/-- The members of a create payload that the panel echoes back unchanged: `name`,
`user` and `egg`, each only when the payload has it. -/
def echo (payload : List (String × JSON)) : List (String × JSON) :=
  payload.filter (fun kv => kv.1 = "name" ∨ kv.1 = "user" ∨ kv.1 = "egg")

/-- The RequestSpec invariant on one request, `payload` being the JSON encoding
of the accessor's request structure when it has one: the verb is one of the four;
GET and DELETE carry no body; POST and PATCH carry a non-empty body, which is
that encoding; so the body is present exactly for POST and PATCH. -/
def RequestSpecInvariant (r : Request) (payload : Option String) : Prop :=
  (upper r.verb = "GET" ∨ upper r.verb = "DELETE" ∨ upper r.verb = "POST" ∨
    upper r.verb = "PATCH") ∧
  ((upper r.verb = "GET" ∨ upper r.verb = "DELETE") → r.body = none) ∧
  ((upper r.verb = "POST" ∨ upper r.verb = "PATCH") →
    ∃ b, r.body = some b ∧ b ≠ "" ∧ payload = some b) ∧
  (r.body ≠ none ↔ (upper r.verb = "POST" ∨ upper r.verb = "PATCH"))

/-- What a decoding accessor returns on a response `body` that came without error:
exactly what `json.Unmarshal` makes of it in a zero-valued entity.  A body that is
not a JSON text gives the syntax error and the zero-valued entity; a body that is
one gives the entity as decoding left it, whether or not an error comes with it;
and a nil error means the whole document was stored without any error. -/
def DecodesReply {α : Type} (dec : Decoder α) (zero : α) (body : String)
    (result : α × Option Error) : Prop :=
  result = Unmarshal dec body zero ∧
  (∀ e, parseJSON body = .error e → result = (zero, some e)) ∧
  (∀ j, parseJSON body = .ok j → result.1 = (dec j zero none).val) ∧
  (result.2 = none → ∃ j, parseJSON body = .ok j ∧
    (dec j zero none).val = result.1 ∧ (dec j zero none).saved = none ∧
    (dec j zero none).hard = none)

/-- Between the two states the log grew by requests that all keep the invariant. -/
def keepsInvariant (before after : Panel) (payload : Option String) : Prop :=
  ∃ rs, after.log = before.log ++ rs ∧ ∀ r ∈ rs, RequestSpecInvariant r payload

/-! ## The round trip of a document through its text: what the statements need -/

/-- The unit the scanner reads back for a character the encoder wrote. -/
def unitOf (c : Char) : StrUnit :=
  if c = '"' ∨ c = '\\' ∨ c = '\n' ∨ c = '\r' ∨ c = '\t' ∨ c.toNat = 8 ∨ c.toNat = 12 then .lit c
  else if c.toNat < 0x20 ∨ c = '<' ∨ c = '>' ∨ c = '&' ∨ c.toNat = 0x2028 ∨ c.toNat = 0x2029 then
    .esc c.toNat
  else .lit c

/-- The tokens of the entries of a `map[string]string`. -/
def entryTokens (first : Bool) : List (GoString × GoString) → List Token
  | [] => []
  | (k, v) :: es =>
    (if first then [] else [.comma]) ++
      (.str (sanitize k) :: .colon :: .str (sanitize v) :: entryTokens false es)

mutual
/-- The tokens of the compact text of a document. -/
def tokens : JSON → List Token
  | .null => [.word ['n', 'u', 'l', 'l']]
  | .bool true => [.word ['t', 'r', 'u', 'e']]
  | .bool false => [.word ['f', 'a', 'l', 's', 'e']]
  | .num n => [.number (Itoa n).data]
  | .numLit raw => [.number raw.data]
  | .str s => [.str s]
  | .bytes g => [.str (sanitize g)]
  | .bytesMap es => .lbrace :: (entryTokens true es ++ [.rbrace])
  | .arr es => .lbrack :: (elemTokens true es ++ [.rbrack])
  | .obj ms => .lbrace :: (memberTokens true ms ++ [.rbrace])
def elemTokens (first : Bool) : List JSON → List Token
  | [] => []
  | e :: es => (if first then [] else [.comma]) ++ (tokens e ++ elemTokens false es)
def memberTokens (first : Bool) : List (String × JSON) → List Token
  | [] => []
  | (k, v) :: ms =>
    (if first then [] else [.comma]) ++ (.str k :: .colon :: (tokens v ++ memberTokens false ms))
end

mutual
/-- No number of the document is written with a fraction or an exponent. -/
def plain : JSON → Bool
  | .numLit _ => false
  | .arr es => plainElems es
  | .obj ms => plainMembers ms
  | _ => true
def plainElems : List JSON → Bool
  | [] => true
  | e :: es => plain e && plainElems es
def plainMembers : List (String × JSON) → Bool
  | [] => true
  | (_, v) :: ms => plain v && plainMembers ms
end

mutual
/-- How deep the arrays and objects of a document nest. -/
def depth : JSON → Nat
  | .bytesMap _ => 1
  | .arr es => depthElems es + 1
  | .obj ms => depthMembers ms + 1
  | _ => 0
def depthElems : List JSON → Nat
  | [] => 0
  | e :: es => max (depth e) (depthElems es)
def depthMembers : List (String × JSON) → Nat
  | [] => 0
  | (_, v) :: ms => max (depth v) (depthMembers ms)
end

/-- The entries of a `map[string]string` as they are read back. -/
def denoteEntries (es : List (GoString × GoString)) : List (String × JSON) :=
  es.map (fun kv => (sanitize kv.1, .str (sanitize kv.2)))

mutual
/-- The document that the text of a document is read back as: a Go string is
read back as the text it denotes. -/
def denote : JSON → JSON
  | .null => .null
  | .bool b => .bool b
  | .num n => .num n
  | .numLit raw => .numLit raw
  | .str s => .str s
  | .bytes g => .str (sanitize g)
  | .bytesMap es => .obj (denoteEntries es)
  | .arr es => .arr (denoteElems es)
  | .obj ms => .obj (denoteMembers ms)
def denoteElems : List JSON → List JSON
  | [] => []
  | e :: es => denote e :: denoteElems es
def denoteMembers : List (String × JSON) → List (String × JSON)
  | [] => []
  | (k, v) :: ms => (k, denote v) :: denoteMembers ms
end

/-- The unit the scanner reads back for a character of a Go string. -/
def unitOfRune : Option Char → StrUnit
  | some c => unitOf c
  | none => .esc 0xFFFD

/-- A character that follows a value inside the compact text. -/
def isDelim (c : Char) : Prop := c = ',' ∨ c = ']' ∨ c = '}'

/-- The envelope of a single server with an id, a name and a uuid. -/
def serverEnvelope (id : Int) (name uuid : String) : JSON :=
  .obj [("object", .str "server"),
    ("attributes", .obj [("id", .num id), ("name", .str name), ("uuid", .str uuid)])]

/-- The compact text of that envelope:
`{"object":"server","attributes":{"id":ID,"name":"NAME","uuid":"UUID"}}`. -/
def serverEnvelopeText (id : Int) (name uuid : String) : String :=
  "\x7b\"object\":\"server\",\"attributes\":\x7b\"id\":" ++ Itoa id ++ ",\"name\":" ++ quote name ++
    ",\"uuid\":" ++ quote uuid ++ "\x7d\x7d"

/-- The envelope a panel answers a create request with when it echoes the `name`,
`user` and `egg` members of the payload it read, `sent`. -/
def echoEnvelope (sent : List (String × JSON)) : JSON :=
  .obj [("object", .str "server"), ("attributes", .obj (echo sent))]

/-! ## Lemmas -/

theorem Marshal_ServerChange (c : ServerChange) :
    Marshal ServerChange.toJSON c = .ok (encode (.obj c.members)) := rfl

theorem GetServers_run (env : Env) (p : Panel) :
    GetServers env p = exchange (Servers.decode env) {} ⟨"servers", "get", none⟩ p := by
  simp only [GetServers, queryPanelAPI, exchange]
  split
  · rfl
  · split <;> simp_all

theorem GetServer_run (env : Env) (id : Int) (p : Panel) :
    GetServer env id p = exchange (Server.decode env) {} ⟨"servers/" ++ Itoa id, "get", none⟩ p := by
  simp only [GetServer, queryPanelAPI, exchange]
  split
  · rfl
  · split <;> simp_all

theorem GetServerAllocations_run (id : Int) (p : Panel) :
    GetServerAllocations id p =
      exchange decodeIntSlice none ⟨"servers/" ++ Itoa id ++ "?include=allocations", "get", none⟩ p := by
  simp only [GetServerAllocations, queryPanelAPI, exchange]
  split
  · rfl
  · split <;> simp_all

theorem CreateServer_run (env : Env) (c : ServerChange) (p : Panel) :
    CreateServer env c p =
      exchange (Server.decode env) {} ⟨"servers", "post", some (encode (.obj c.members))⟩ p := by
  simp only [CreateServer, Marshal_ServerChange, queryPanelAPI, exchange]
  split
  · rfl
  · split <;> simp_all

theorem EditServerDetails_run (env : Env) (c : ServerChange) (id : Int) (p : Panel) :
    EditServerDetails env c id p =
      exchange (Server.decode env) {} ⟨"servers/" ++ Itoa id ++ "/details", "patch", some (encode (.obj c.members))⟩ p := by
  simp only [EditServerDetails, Marshal_ServerChange, queryPanelAPI, exchange]
  split
  · rfl
  · split <;> simp_all

theorem EditServerBuild_run (env : Env) (c : ServerChange) (id : Int) (p : Panel) :
    EditServerBuild env c id p =
      exchange (Server.decode env) {} ⟨"servers/" ++ Itoa id ++ "/build", "patch", some (encode (.obj c.members))⟩ p := by
  simp only [EditServerBuild, Marshal_ServerChange, queryPanelAPI, exchange]
  split
  · rfl
  · split <;> simp_all

theorem EditServerStartup_run (env : Env) (c : ServerChange) (id : Int) (p : Panel) :
    EditServerStartup env c id p =
      exchange (Server.decode env) {} ⟨"servers/" ++ Itoa id ++ "/startup", "patch", some (encode (.obj c.members))⟩ p := by
  simp only [EditServerStartup, Marshal_ServerChange, queryPanelAPI, exchange]
  split
  · rfl
  · split <;> simp_all

theorem DeleteServer_run (id : Int) (p : Panel) :
    DeleteServer id p = discard ⟨"servers/" ++ Itoa id, "delete", none⟩ p := by
  simp only [DeleteServer, queryPanelAPI, discard]
  split <;> simp_all

theorem GetUsers_run (env : Env) (p : Panel) :
    GetUsers env p = exchange (Users.decode env) {} ⟨"users", "get", none⟩ p := by
  simp only [GetUsers, queryPanelAPI, exchange]
  split
  · rfl
  · split <;> simp_all

theorem GetUser_run (env : Env) (id : Int) (p : Panel) :
    GetUser env id p = exchange (User.decode env) {} ⟨"users/" ++ Itoa id, "get", none⟩ p := by
  simp only [GetUser, queryPanelAPI, exchange]
  split
  · rfl
  · split <;> simp_all

theorem GetUserByExternal_run (env : Env) (ext : String) (p : Panel) :
    GetUserByExternal env ext p = exchange (User.decode env) {} ⟨"users/" ++ ext, "get", none⟩ p := by
  simp only [GetUserByExternal, queryPanelAPI, exchange]
  split
  · rfl
  · split <;> simp_all

theorem GetUserByPage_run (env : Env) (id : Int) (p : Panel) :
    GetUserByPage env id p = exchange (User.decode env) {} ⟨"users/" ++ Itoa id, "get", none⟩ p := by
  simp only [GetUserByPage, queryPanelAPI, exchange]
  split
  · rfl
  · split <;> simp_all

theorem CreateUser_run (env : Env) (u : UserAttributes) (p : Panel) :
    CreateUser env u p =
      match Marshal (UserAttributes.toJSON env) u with
      | .error e => ((({} : User), some e), p)
      | .ok b => exchange (User.decode env) {} ⟨"users", "post", some b⟩ p := by
  simp only [CreateUser, queryPanelAPI, exchange]
  split
  · rfl
  · split
    · rfl
    · split <;> simp_all

theorem EditUser_run (env : Env) (u : UserAttributes) (id : Int) (p : Panel) :
    EditUser env u id p =
      match Marshal (UserAttributes.toJSON env) u with
      | .error e => ((({} : User), some e), p)
      | .ok b => exchange (User.decode env) {} ⟨"users/" ++ Itoa id, "patch", some b⟩ p := by
  simp only [EditUser, queryPanelAPI, exchange]
  split
  · rfl
  · split
    · rfl
    · split <;> simp_all

theorem DeleteUser_run (id : Int) (p : Panel) :
    DeleteUser id p = discard ⟨"users/" ++ Itoa id, "delete", none⟩ p := by
  simp only [DeleteUser, queryPanelAPI, discard]
  split <;> simp_all

theorem issues_exchange {α : Type} (dec : Decoder α) (zero : α) (req : Request) (p : Panel) :
    issues p (exchange dec zero req p).2 req.path (upper req.verb) :=
  ⟨req, rfl, rfl, rfl⟩

theorem issues_discard (req : Request) (p : Panel) :
    issues p (discard req p).2 req.path (upper req.verb) :=
  ⟨req, rfl, rfl, rfl⟩

theorem decodeMembers_cons {α : Type} (names : List String) (field : String → Decoder α)
    (k : String) (v : JSON) (rest : List (String × JSON)) (a : α) (s : Option Error)
    (f : String) (r : Decoded α) (hf : findField names k = some f) (hr : field f v a s = r)
    (hh : r.hard = none) :
    decodeMembers names field ((k, v) :: rest) a s = decodeMembers names field rest r.val r.saved := by
  subst hr
  simp only [decodeMembers, hf, hh]

theorem decodeInt_num (n : Int) (h : isInt n = true) (a : Int) (s : Option Error) :
    decodeInt (.num n) a s = ⟨n, s, none⟩ := by
  simp [decodeInt, h]

/-- The attributes `id`, `name`, `uuid` decode into the three fields. -/
theorem ServerAttributes_decode_id_name_uuid (env : Env) (id : Int) (name uuid : String)
    (h : isInt id = true) (a : ServerAttributes) (s : Option Error) :
    ServerAttributes.decode env
      (.obj [("id", .num id), ("name", .str name), ("uuid", .str uuid)]) a s =
      ⟨{ a with ID := id, Name := name, UUID := uuid }, s, none⟩ := by
  unfold ServerAttributes.decode decodeStruct
  simp only []
  rw [decodeMembers_cons _ _ "id" _ _ _ _ "id" ⟨{ a with ID := id }, s, none⟩ (by decide)
    (by simp [ServerAttributes.field, decodeInt_num _ h, Decoded.map]) rfl]
  rw [decodeMembers_cons _ _ "name" _ _ _ _ "name" ⟨{ a with ID := id, Name := name }, s, none⟩
    (by decide) rfl rfl]
  rw [decodeMembers_cons _ _ "uuid" _ _ _ _ "uuid"
    ⟨{ a with ID := id, Name := name, UUID := uuid }, s, none⟩ (by decide) rfl rfl]
  rfl

/-! ### Go strings -/

theorem toNat_ofNat (v : Nat) (h : v < 0xD800 ∨ (0xDFFF < v ∧ v < 0x110000)) :
    (Char.ofNat v).toNat = v := by
  have hv : v.isValidChar := h
  simp only [Char.ofNat, hv, dite_true, Char.ofNatAux, Char.toNat]
  have : v < 4294967296 := by omega
  simp [UInt32.toNat, Nat.mod_eq_of_lt this]

theorem byte_val (b : Byte) : byte b.val = b := by
  apply Fin.ext
  simp [byte, Nat.mod_eq_of_lt b.isLt]

theorem byte_eq (n : Nat) (b : Byte) (h : n = b.val) : byte n = b := by
  subst h; exact byte_val b

theorem accepts_range (b0 b1 : Byte) (h : accepts b0 b1 = true) :
    0x80 ≤ b1.val ∧ b1.val ≤ 0xBF ∧ (b0.val = 0xE0 → 0xA0 ≤ b1.val) ∧
      (b0.val = 0xED → b1.val ≤ 0x9F) ∧ (b0.val = 0xF0 → 0x90 ≤ b1.val) ∧
      (b0.val = 0xF4 → b1.val ≤ 0x8F) := by
  unfold accepts at h
  split at h
  · simp at h; omega
  · split at h
    · simp at h; omega
    · split at h
      · simp at h; omega
      · split at h
        · simp at h; omega
        · simp [isCont] at h; omega

theorem isCont_range (b : Byte) (h : isCont b = true) : 0x80 ≤ b.val ∧ b.val ≤ 0xBF := by
  simpa [isCont] using h

theorem decodeRune_some (bs : List Byte) (c : Char) (w : Nat)
    (h : decodeRune bs = (some c, w)) : utf8Char c = bs.take w ∧ 1 ≤ w ∧ w ≤ bs.length := by
  cases bs with
  | nil => simp [decodeRune] at h
  | cons b0 rest =>
    simp only [decodeRune] at h
    by_cases h1 : b0.val < 0x80
    · rw [if_pos h1] at h
      simp only [Prod.mk.injEq, Option.some.injEq] at h
      obtain ⟨rfl, rfl⟩ := h
      have hv := toNat_ofNat b0.val (by omega)
      simp [utf8Char, hv, h1, byte_val]
    rw [if_neg h1] at h
    by_cases h2 : 0xC2 ≤ b0.val ∧ b0.val ≤ 0xDF
    · rw [if_pos h2] at h
      cases rest with
      | nil => simp at h
      | cons b1 rest1 =>
        simp only [] at h
        by_cases ha : accepts b0 b1 = true
        · rw [if_pos ha] at h
          simp only [Prod.mk.injEq, Option.some.injEq] at h
          obtain ⟨rfl, rfl⟩ := h
          obtain ⟨r1, r2, -⟩ := accepts_range b0 b1 ha
          have hv := toNat_ofNat ((b0.val - 0xC0) * 64 + (b1.val - 0x80)) (by omega)
          have c1 : ¬ ((b0.val - 0xC0) * 64 + (b1.val - 0x80) < 0x80) := by omega
          have c2 : (b0.val - 0xC0) * 64 + (b1.val - 0x80) < 0x800 := by omega
          simp only [utf8Char, hv, c1, c2, if_true, if_false, List.take_succ_cons, List.take_zero,
            List.length_cons]
          refine ⟨?_, by omega, by omega⟩
          rw [byte_eq _ b0 (by omega), byte_eq _ b1 (by omega)]
        · rw [if_neg ha] at h
          simp at h
    rw [if_neg h2] at h
    by_cases h3 : 0xE0 ≤ b0.val ∧ b0.val ≤ 0xEF
    · rw [if_pos h3] at h
      match rest, h with
      | [], h => simp at h
      | [_], h => simp at h
      | b1 :: b2 :: rest2, h =>
        simp only [] at h
        by_cases ha : accepts b0 b1 = true ∧ isCont b2 = true
        · rw [if_pos ha] at h
          simp only [Prod.mk.injEq, Option.some.injEq] at h
          obtain ⟨rfl, rfl⟩ := h
          obtain ⟨r1, r2, r3, r4, -⟩ := accepts_range b0 b1 ha.1
          obtain ⟨s1, s2⟩ := isCont_range b2 ha.2
          have hv := toNat_ofNat
            ((b0.val - 0xE0) * 4096 + (b1.val - 0x80) * 64 + (b2.val - 0x80)) (by omega)
          have c1 : ¬ ((b0.val - 0xE0) * 4096 + (b1.val - 0x80) * 64 + (b2.val - 0x80) < 0x80) := by
            omega
          have c2 : ¬ ((b0.val - 0xE0) * 4096 + (b1.val - 0x80) * 64 + (b2.val - 0x80) < 0x800) := by
            omega
          have c3 : (b0.val - 0xE0) * 4096 + (b1.val - 0x80) * 64 + (b2.val - 0x80) < 0x10000 := by
            omega
          simp only [utf8Char, hv, c1, c2, c3, if_true, if_false, List.take_succ_cons,
            List.take_zero, List.length_cons]
          refine ⟨?_, by omega, by omega⟩
          rw [byte_eq _ b0 (by omega), byte_eq _ b1 (by omega), byte_eq _ b2 (by omega)]
        · rw [if_neg ha] at h
          simp at h
    rw [if_neg h3] at h
    by_cases h4 : 0xF0 ≤ b0.val ∧ b0.val ≤ 0xF4
    · rw [if_pos h4] at h
      match rest, h with
      | [], h => simp at h
      | [_], h => simp at h
      | [_, _], h => simp at h
      | b1 :: b2 :: b3 :: rest3, h =>
        simp only [] at h
        by_cases ha : accepts b0 b1 = true ∧ isCont b2 = true ∧ isCont b3 = true
        · rw [if_pos ha] at h
          simp only [Prod.mk.injEq, Option.some.injEq] at h
          obtain ⟨rfl, rfl⟩ := h
          obtain ⟨r1, r2, -, -, r5, r6⟩ := accepts_range b0 b1 ha.1
          obtain ⟨s1, s2⟩ := isCont_range b2 ha.2.1
          obtain ⟨t1, t2⟩ := isCont_range b3 ha.2.2
          have hv := toNat_ofNat
            ((b0.val - 0xF0) * 262144 + (b1.val - 0x80) * 4096 + (b2.val - 0x80) * 64 +
              (b3.val - 0x80)) (by omega)
          have c1 : ¬ ((b0.val - 0xF0) * 262144 + (b1.val - 0x80) * 4096 + (b2.val - 0x80) * 64 +
              (b3.val - 0x80) < 0x80) := by omega
          have c2 : ¬ ((b0.val - 0xF0) * 262144 + (b1.val - 0x80) * 4096 + (b2.val - 0x80) * 64 +
              (b3.val - 0x80) < 0x800) := by omega
          have c3 : ¬ ((b0.val - 0xF0) * 262144 + (b1.val - 0x80) * 4096 + (b2.val - 0x80) * 64 +
              (b3.val - 0x80) < 0x10000) := by omega
          simp only [utf8Char, hv, c1, c2, c3, if_true, if_false, List.take_succ_cons,
            List.take_zero, List.length_cons]
          refine ⟨?_, by omega, by omega⟩
          rw [byte_eq _ b0 (by omega), byte_eq _ b1 (by omega), byte_eq _ b2 (by omega),
            byte_eq _ b3 (by omega)]
        · rw [if_neg ha] at h
          simp at h
    rw [if_neg h4] at h
    simp at h

theorem runesFrom_skip (k : Nat) (bs : List Byte) :
    runesFrom k bs = runesFrom 0 (bs.drop k) := by
  induction k generalizing bs with
  | zero => simp
  | succ k ih =>
    cases bs with
    | nil => simp [runesFrom]
    | cons b rest => simp [runesFrom, ih]

theorem utf8_runes (n : Nat) : ∀ (bs : List Byte), bs.length ≤ n →
    (runesFrom 0 bs).all Option.isSome = true →
    ((runesFrom 0 bs).map (fun r => r.getD (Char.ofNat 0xFFFD))).flatMap utf8Char = bs := by
  induction n with
  | zero =>
    intro bs hl _
    have : bs = [] := List.length_eq_zero.mp (by omega)
    subst this; rfl
  | succ n ih =>
    intro bs hl hall
    cases bs with
    | nil => rfl
    | cons b rest =>
      simp only [runesFrom, List.all_cons, Bool.and_eq_true] at hall
      obtain ⟨hsome, hrest⟩ := hall
      obtain ⟨c, hc⟩ := Option.isSome_iff_exists.mp hsome
      have hd : decodeRune (b :: rest) = (some c, (decodeRune (b :: rest)).2) := by
        rw [← hc]
      obtain ⟨hu, hw1, hw2⟩ := decodeRune_some _ _ _ hd
      rw [runesFrom_skip] at hrest
      have hlen : (rest.drop ((decodeRune (b :: rest)).2 - 1)).length ≤ n := by
        simp only [List.length_drop, List.length_cons] at hl ⊢
        omega
      have := ih _ hlen hrest
      simp only [runesFrom, List.map_cons, List.flatMap_cons, hc, Option.getD_some]
      rw [runesFrom_skip, this, hu]
      have hdrop : rest.drop ((decodeRune (b :: rest)).2 - 1) =
          (b :: rest).drop (decodeRune (b :: rest)).2 := by
        obtain ⟨k, hk⟩ : ∃ k, (decodeRune (b :: rest)).2 = k + 1 := ⟨_, (Nat.sub_add_cancel hw1).symm⟩
        rw [hk]; simp
      rw [hdrop, List.take_append_drop]

/-- A valid UTF-8 string is the encoding of the string its bytes denote. -/
theorem utf8_sanitize (g : GoString) (h : validUTF8 g = true) : utf8 (sanitize g) = g :=
  utf8_runes g.length g (Nat.le_refl _) h

theorem byte_val_lt (n : Nat) (h : n < 256) : (byte n).val = n := by
  simp [byte, Nat.mod_eq_of_lt h]

theorem char_range (c : Char) : c.toNat < 0xD800 ∨ (0xDFFF < c.toNat ∧ c.toNat < 0x110000) := by
  have h := c.valid
  simp only [UInt32.isValidChar, Nat.isValidChar] at h
  exact h

theorem decodeRune_utf8Char (c : Char) (rest : List Byte) :
    decodeRune (utf8Char c ++ rest) = (some c, (utf8Char c).length) := by
  have hr := char_range c
  unfold utf8Char
  by_cases h1 : c.toNat < 0x80
  · simp only [h1, if_true, List.singleton_append, decodeRune, List.length_singleton]
    rw [byte_val_lt _ (by omega)]
    simp [h1, Char.ofNat_toNat]
  by_cases h2 : c.toNat < 0x800
  · simp only [h1, h2, if_true, if_false, List.cons_append, List.nil_append, decodeRune, accepts,
      isCont]
    rw [byte_val_lt (0xC0 + c.toNat / 64) (by omega), byte_val_lt (0x80 + c.toNat % 64) (by omega)]
    have e : (0xC0 + c.toNat / 64 - 0xC0) * 64 + (0x80 + c.toNat % 64 - 0x80) = c.toNat := by omega
    rw [e]
    have a1 : ¬ (0xC0 + c.toNat / 64 < 0x80) := by omega
    have a2 : 0xC2 ≤ 0xC0 + c.toNat / 64 ∧ 0xC0 + c.toNat / 64 ≤ 0xDF := by omega
    have a3 : ¬ (0xC0 + c.toNat / 64 = 0xE0) := by omega
    have a4 : ¬ (0xC0 + c.toNat / 64 = 0xED) := by omega
    have a5 : ¬ (0xC0 + c.toNat / 64 = 0xF0) := by omega
    have a6 : ¬ (0xC0 + c.toNat / 64 = 0xF4) := by omega
    have a7 : 0x80 ≤ 0x80 + c.toNat % 64 ∧ 0x80 + c.toNat % 64 ≤ 0xBF := by omega
    simp [a1, a2, a3, a4, a5, a6, a7, Char.ofNat_toNat]
  by_cases h3 : c.toNat < 0x10000
  · simp only [h1, h2, h3, if_true, if_false, List.cons_append, List.nil_append, decodeRune,
      accepts, isCont]
    rw [byte_val_lt (0xE0 + c.toNat / 4096) (by omega),
      byte_val_lt (0x80 + c.toNat / 64 % 64) (by omega),
      byte_val_lt (0x80 + c.toNat % 64) (by omega)]
    have e : (0xE0 + c.toNat / 4096 - 0xE0) * 4096 + (0x80 + c.toNat / 64 % 64 - 0x80) * 64 +
        (0x80 + c.toNat % 64 - 0x80) = c.toNat := by omega
    rw [e]
    have a1 : ¬ (0xE0 + c.toNat / 4096 < 0x80) := by omega
    have a2 : ¬ (0xC2 ≤ 0xE0 + c.toNat / 4096 ∧ 0xE0 + c.toNat / 4096 ≤ 0xDF) := by omega
    have a3 : 0xE0 ≤ 0xE0 + c.toNat / 4096 ∧ 0xE0 + c.toNat / 4096 ≤ 0xEF := by omega
    have a5 : ¬ (0xE0 + c.toNat / 4096 = 0xF0) := by omega
    have a6 : ¬ (0xE0 + c.toNat / 4096 = 0xF4) := by omega
    have a7 : 0x80 ≤ 0x80 + c.toNat % 64 ∧ 0x80 + c.toNat % 64 ≤ 0xBF := by omega
    have a8 : 0x80 ≤ 0x80 + c.toNat / 64 % 64 ∧ 0x80 + c.toNat / 64 % 64 ≤ 0xBF := by omega
    by_cases b1 : 0xE0 + c.toNat / 4096 = 0xE0
    · have b2 : 0xA0 ≤ 0x80 + c.toNat / 64 % 64 ∧ 0x80 + c.toNat / 64 % 64 ≤ 0xBF := by omega
      simp [a1, a2, a3, a7, b1, b2, Char.ofNat_toNat]
    by_cases b3 : 0xE0 + c.toNat / 4096 = 0xED
    · have b4 : 0x80 ≤ 0x80 + c.toNat / 64 % 64 ∧ 0x80 + c.toNat / 64 % 64 ≤ 0x9F := by omega
      simp [a1, a2, a3, a7, b1, b3, b4, Char.ofNat_toNat]
    simp [a1, a2, a3, a5, a6, a7, a8, b1, b3, Char.ofNat_toNat]
  simp only [h1, h2, h3, if_true, if_false, List.cons_append, List.nil_append, decodeRune,
    accepts, isCont]
  rw [byte_val_lt (0xF0 + c.toNat / 262144) (by omega),
    byte_val_lt (0x80 + c.toNat / 4096 % 64) (by omega),
    byte_val_lt (0x80 + c.toNat / 64 % 64) (by omega),
    byte_val_lt (0x80 + c.toNat % 64) (by omega)]
  have e : (0xF0 + c.toNat / 262144 - 0xF0) * 262144 + (0x80 + c.toNat / 4096 % 64 - 0x80) * 4096 +
      (0x80 + c.toNat / 64 % 64 - 0x80) * 64 + (0x80 + c.toNat % 64 - 0x80) = c.toNat := by omega
  rw [e]
  have a1 : ¬ (0xF0 + c.toNat / 262144 < 0x80) := by omega
  have a2 : ¬ (0xC2 ≤ 0xF0 + c.toNat / 262144 ∧ 0xF0 + c.toNat / 262144 ≤ 0xDF) := by omega
  have a3 : ¬ (0xE0 ≤ 0xF0 + c.toNat / 262144 ∧ 0xF0 + c.toNat / 262144 ≤ 0xEF) := by omega
  have a4 : 0xF0 ≤ 0xF0 + c.toNat / 262144 ∧ 0xF0 + c.toNat / 262144 ≤ 0xF4 := by omega
  have a5 : ¬ (0xF0 + c.toNat / 262144 = 0xE0) := by omega
  have a6 : ¬ (0xF0 + c.toNat / 262144 = 0xED) := by omega
  have a7 : 0x80 ≤ 0x80 + c.toNat % 64 ∧ 0x80 + c.toNat % 64 ≤ 0xBF := by omega
  have a8 : 0x80 ≤ 0x80 + c.toNat / 64 % 64 ∧ 0x80 + c.toNat / 64 % 64 ≤ 0xBF := by omega
  have a9 : 0x80 ≤ 0x80 + c.toNat / 4096 % 64 ∧ 0x80 + c.toNat / 4096 % 64 ≤ 0xBF := by omega
  by_cases b1 : 0xF0 + c.toNat / 262144 = 0xF0
  · have b2 : 0x90 ≤ 0x80 + c.toNat / 4096 % 64 ∧ 0x80 + c.toNat / 4096 % 64 ≤ 0xBF := by omega
    simp [a1, a2, a3, a4, a5, a6, a7, a8, b1, b2, Char.ofNat_toNat]
  by_cases b3 : 0xF0 + c.toNat / 262144 = 0xF4
  · have b4 : 0x80 ≤ 0x80 + c.toNat / 4096 % 64 ∧ 0x80 + c.toNat / 4096 % 64 ≤ 0x8F := by omega
    simp [a1, a2, a3, a4, a5, a6, a7, a8, b1, b3, b4, Char.ofNat_toNat]
  simp [a1, a2, a3, a4, a5, a6, a7, a8, a9, b1, b3, Char.ofNat_toNat]

theorem utf8Char_length (c : Char) : 1 ≤ (utf8Char c).length := by
  unfold utf8Char
  split
  · simp
  · split
    · simp
    · split <;> simp

theorem runesFrom_skip_append (xs ys : List Byte) :
    runesFrom xs.length (xs ++ ys) = runesFrom 0 ys := by
  rw [runesFrom_skip]
  simp

theorem runes_utf8 (cs : List Char) : runesFrom 0 (cs.flatMap utf8Char) = cs.map some := by
  induction cs with
  | nil => rfl
  | cons c cs ih =>
    rw [List.flatMap_cons, List.map_cons]
    have hd := decodeRune_utf8Char c (cs.flatMap utf8Char)
    have hl := utf8Char_length c
    cases hu : utf8Char c with
    | nil => rw [hu] at hl; simp at hl
    | cons b bs =>
      rw [hu] at hd
      simp only [List.cons_append] at hd ⊢
      rw [runesFrom, hd]
      simp only [List.length_cons, Nat.add_sub_cancel]
      rw [runesFrom_skip_append, ih]

theorem validUTF8_utf8 (s : String) : validUTF8 (utf8 s) = true := by
  simp [validUTF8, runes, utf8, runes_utf8]

theorem sanitize_utf8 (s : String) : sanitize (utf8 s) = s := by
  have h : s.data.map ((fun r : Option Char => r.getD (Char.ofNat 0xFFFD)) ∘ some) = s.data := by
    induction s.data with
    | nil => rfl
    | cons c cs ih => simpa using ih
  simp only [sanitize, runes, utf8, runes_utf8, List.map_map, h]

/-! ### The payload of a ServerChange -/

theorem sanitize_eq_empty (g : GoString) : sanitize g = "" ↔ g = [] := by
  cases g with
  | nil => simp [sanitize, runes, runesFrom]
  | cons b rest =>
    simp only [sanitize, runes, runesFrom, List.map_cons]
    constructor
    · intro h
      have := congrArg String.data h
      simp at this
    · intro h
      simp at h

theorem denoteMembers_append (xs ys : List (String × JSON)) :
    denoteMembers (xs ++ ys) = denoteMembers xs ++ denoteMembers ys := by
  induction xs with
  | nil => rfl
  | cons x xs ih =>
    obtain ⟨k, v⟩ := x
    simp [denoteMembers, ih]

theorem denoteMembers_intMember (k : String) (n : Int) :
    denoteMembers (intMember k n) = intMember k n := by
  unfold intMember; split <;> simp [denoteMembers, denote]

theorem denoteMembers_bytesMember (k : String) (g : GoString) :
    denoteMembers (bytesMember k g) = strMember k (sanitize g) := by
  unfold bytesMember strMember
  by_cases h : g = []
  · subst h; simp [sanitize, runes, runesFrom, denoteMembers]
  · have h2 : sanitize g ≠ "" := fun e => h ((sanitize_eq_empty g).1 e)
    simp [h, h2, denoteMembers, denote]

theorem denote_limits (l : ServerLimits) : denote l.toJSON = l.toJSON := by
  simp [ServerLimits.toJSON, denote, denoteMembers_append, denoteMembers_intMember]

theorem denote_featureLimits (l : ServerFeatureLimits) : denote l.toJSON = l.toJSON := by
  simp [ServerFeatureLimits.toJSON, denote, denoteMembers_append, denoteMembers_intMember]

theorem denote_allocation (a : ServerAllocation) : denote a.toJSON = a.toJSON := by
  simp [ServerAllocation.toJSON, denote, denoteMembers_intMember]

/-- The members of a create payload as they are read back from its text. -/
theorem denoteMembers_members (c : ServerChange) :
    denoteMembers c.members =
      strMember "name" (sanitize c.Name) ++ intMember "user" c.User ++ intMember "egg" c.Egg ++
      strMember "docker_image" (sanitize c.DockerImage) ++
      strMember "startup" (sanitize c.Startup) ++
      denoteMembers (mapMember "environment" c.Environment) ++
      [("limits", c.Limits.toJSON), ("feature_limits", c.FeatureLimits.toJSON),
       ("allocation", c.Allocation.toJSON)] := by
  simp only [ServerChange.members, denoteMembers_append, denoteMembers_intMember,
    denoteMembers_bytesMember, denoteMembers, denote_limits,
    denote_featureLimits, denote_allocation]

theorem echo_members (c : ServerChange) :
    echo (denoteMembers c.members) =
      strMember "name" (sanitize c.Name) ++ intMember "user" c.User ++
        intMember "egg" c.Egg := by
  rw [denoteMembers_members]
  simp only [echo, List.filter_append]
  have h1 : ∀ x, List.filter (fun kv : String × JSON => kv.1 = "name" ∨ kv.1 = "user" ∨ kv.1 = "egg")
      (strMember "name" x) = strMember "name" x := by
    intro x; unfold strMember; split <;> simp
  have h2 : ∀ x, List.filter (fun kv : String × JSON => kv.1 = "name" ∨ kv.1 = "user" ∨ kv.1 = "egg")
      (intMember "user" x) = intMember "user" x := by
    intro x; unfold intMember; split <;> simp
  have h3 : ∀ x, List.filter (fun kv : String × JSON => kv.1 = "name" ∨ kv.1 = "user" ∨ kv.1 = "egg")
      (intMember "egg" x) = intMember "egg" x := by
    intro x; unfold intMember; split <;> simp
  have h4 : ∀ x, List.filter (fun kv : String × JSON => kv.1 = "name" ∨ kv.1 = "user" ∨ kv.1 = "egg")
      (strMember "docker_image" x) = [] := by
    intro x; unfold strMember; split <;> simp
  have h5 : ∀ x, List.filter (fun kv : String × JSON => kv.1 = "name" ∨ kv.1 = "user" ∨ kv.1 = "egg")
      (strMember "startup" x) = [] := by
    intro x; unfold strMember; split <;> simp
  have h6 : ∀ x, List.filter (fun kv : String × JSON => kv.1 = "name" ∨ kv.1 = "user" ∨ kv.1 = "egg")
      (denoteMembers (mapMember "environment" x)) = [] := by
    intro x; unfold mapMember; split <;> simp [denoteMembers]
  rw [h1, h2, h3, h4, h5, h6]
  simp

/-- The echoed members decode into the fields `Name`, `User`, `Egg`, whether or
not each is present. -/
theorem ServerAttributes_decode_members (env : Env) (n : String) (u e : Int)
    (hu : isInt u = true) (he : isInt e = true) :
    ServerAttributes.decode env
      (.obj (strMember "name" n ++ intMember "user" u ++ intMember "egg" e)) {} none =
      ⟨{ Name := n, User := u, Egg := e }, none, none⟩ := by
  have f1 : findField ServerAttributes.names "name" = some "name" := by decide
  have f2 : findField ServerAttributes.names "user" = some "user" := by decide
  have f3 : findField ServerAttributes.names "egg" = some "egg" := by decide
  unfold ServerAttributes.decode decodeStruct
  by_cases hn : n = "" <;> by_cases hu0 : u = 0 <;> by_cases he0 : e = 0 <;>
    simp [strMember, intMember, hn, hu0, he0, decodeMembers, f1, f2, f3, ServerAttributes.field,
      decodeInt_num _ hu, decodeInt_num _ he, Decoded.map, decodeString]

theorem encode_obj_ne_empty (ms : List (String × JSON)) : encode (.obj ms) ≠ "" := by
  intro h
  have hl := congrArg String.length h
  rw [encode] at hl
  simp only [String.length_append] at hl
  have h1 : "\x7b".length = 1 := rfl
  have h2 : "".length = 0 := rfl
  omega

theorem invariant_get (path : String) (payload : Option String) :
    RequestSpecInvariant ⟨path, "get", none⟩ payload := by
  have h : upper "get" = "GET" := by decide
  simp [RequestSpecInvariant, h]

theorem invariant_delete (path : String) (payload : Option String) :
    RequestSpecInvariant ⟨path, "delete", none⟩ payload := by
  have h : upper "delete" = "DELETE" := by decide
  simp [RequestSpecInvariant, h]

theorem invariant_post (path b : String) (hb : b ≠ "") :
    RequestSpecInvariant ⟨path, "post", some b⟩ (some b) := by
  have h : upper "post" = "POST" := by decide
  simp [RequestSpecInvariant, h, hb]

theorem invariant_patch (path b : String) (hb : b ≠ "") :
    RequestSpecInvariant ⟨path, "patch", some b⟩ (some b) := by
  have h : upper "patch" = "PATCH" := by decide
  simp [RequestSpecInvariant, h, hb]

theorem keeps_exchange {α : Type} (dec : Decoder α) (zero : α) (req : Request) (p : Panel)
    (payload : Option String) (h : RequestSpecInvariant req payload) :
    keepsInvariant p (exchange dec zero req p).2 payload :=
  ⟨[req], rfl, by simpa using h⟩

theorem keeps_discard (req : Request) (p : Panel) (payload : Option String)
    (h : RequestSpecInvariant req payload) :
    keepsInvariant p (discard req p).2 payload :=
  ⟨[req], rfl, by simpa using h⟩

theorem keeps_self (p : Panel) (payload : Option String) : keepsInvariant p p payload :=
  ⟨[], by simp, by simp⟩

theorem Marshal_UserAttributes_ok (env : Env) (u : UserAttributes) (b : String)
    (h : Marshal (UserAttributes.toJSON env) u = .ok b) :
    ∃ created updated, env.timeMarshalJSON u.CreatedAt = .ok created ∧
      env.timeMarshalJSON u.UpdatedAt = .ok updated ∧
      b = encode (.obj (u.members ++
        [("created_at", .str created), ("updated_at", .str updated)])) := by
  unfold Marshal UserAttributes.toJSON at h
  cases hc : env.timeMarshalJSON u.CreatedAt with
  | error e => simp [hc] at h
  | ok created =>
    cases hu : env.timeMarshalJSON u.UpdatedAt with
    | error e => simp [hc, hu] at h
    | ok updated =>
      simp [hc, hu] at h
      exact ⟨created, updated, rfl, rfl, h.symm⟩

theorem ServerAttributes_decode_echo (env : Env) (c : ServerChange)
    (hu : isInt c.User = true) (he : isInt c.Egg = true) :
    ServerAttributes.decode env (.obj (echo (denoteMembers c.members))) {} none =
      ⟨{ Name := sanitize c.Name, User := c.User, Egg := c.Egg }, none, none⟩ := by
  rw [echo_members, ServerAttributes_decode_members env _ _ _ hu he]

theorem Unmarshal_decodes {α : Type} (dec : Decoder α) (zero : α) (body : String) :
    DecodesReply dec zero body (Unmarshal dec body zero) := by
  refine ⟨rfl, ?_, ?_, ?_⟩
  · intro e he
    simp [Unmarshal, he]
  · intro j hj
    simp [Unmarshal, hj]
  · intro hnone
    cases hj : parseJSON body with
    | error e => simp [Unmarshal, hj] at hnone
    | ok j =>
      refine ⟨j, rfl, ?_⟩
      simp only [Unmarshal, hj] at hnone ⊢
      cases hh : (dec j zero none).hard with
      | some e => simp [hh] at hnone
      | none => simp [hh] at hnone; simp [hnone]

theorem exchange_decodes {α : Type} (dec : Decoder α) (zero : α) (req : Request) (p : Panel)
    (body : String) (h : p.answer p.log req = ⟨body, none⟩) :
    DecodesReply dec zero body (exchange dec zero req p).1 := by
  have : (exchange dec zero req p).1 = Unmarshal dec body zero := by
    simp [exchange, h]
  rw [this]
  exact Unmarshal_decodes dec zero body

/-! ## Round trip of a document through its text -/

theorem lexLoop_append (xs ys : List Char) (st : LexMode × List Token) :
    lexLoop (xs ++ ys) st =
      match lexLoop xs st with
      | .error e => .error e
      | .ok st' => lexLoop ys st' := by
  induction xs generalizing st with
  | nil => rfl
  | cons c cs ih =>
    simp only [List.cons_append, lexLoop]
    cases lexStep st c with
    | error e => rfl
    | ok st' => exact ih st'

theorem hexValue_hexDigit (n : Nat) (h : n < 16) : hexValue (hexDigit n) = some n := by
  interval_cases n <;> rfl

theorem char_of_toNat (c : Char) (n : Nat) (h : c.toNat = n) : c = Char.ofNat n := by
  rw [← h, Char.ofNat_toNat]

theorem lex_hex_escape (c : Char) (acc : List StrUnit) (toks : List Token) (h : c.toNat < 256) :
    lexLoop ['\\', 'u', '0', '0', hexDigit (c.toNat / 16), hexDigit (c.toNat % 16)]
      (.string acc, toks) = .ok (.string (.esc c.toNat :: acc), toks) := by
  have h1 : hexValue (hexDigit (c.toNat / 16)) = some (c.toNat / 16) :=
    hexValue_hexDigit _ (by omega)
  have h2 : hexValue (hexDigit (c.toNat % 16)) = some (c.toNat % 16) :=
    hexValue_hexDigit _ (by omega)
  have e0 : hexValue '0' = some 0 := rfl
  have e1 : escapeValue 'u' = none := rfl
  simp only [lexLoop, lexStep, e0, h1, h2, List.nil_append, List.cons_append]
  simp
  omega

theorem lex_escapeChar (c : Char) (acc : List StrUnit) (toks : List Token) :
    lexLoop (escapeChar c) (.string acc, toks) = .ok (.string (unitOf c :: acc), toks) := by
  unfold escapeChar unitOf
  by_cases h1 : c = '"'
  · subst h1; rfl
  by_cases h2 : c = '\\'
  · subst h2; rfl
  by_cases h3 : c = '\n'
  · subst h3; rfl
  by_cases h4 : c = '\r'
  · subst h4; rfl
  by_cases h5 : c = '\t'
  · subst h5; rfl
  by_cases h6 : c.toNat = 8
  · have := char_of_toNat c 8 h6; subst this; rfl
  by_cases h7 : c.toNat = 12
  · have := char_of_toNat c 12 h7; subst this; rfl
  simp only [h1, h2, h3, h4, h5, h6, h7, if_false, false_or]
  by_cases h8 : c.toNat < 0x20 ∨ c = '<' ∨ c = '>' ∨ c = '&'
  · have hlt : c.toNat < 256 := by
      rcases h8 with h | h | h | h
      · omega
      · subst h; decide
      · subst h; decide
      · subst h; decide
    have h8' : c.toNat < 0x20 ∨ c = '<' ∨ c = '>' ∨ c = '&' ∨ c.toNat = 0x2028 ∨ c.toNat = 0x2029 := by
      rcases h8 with h | h | h | h <;> simp [h]
    rw [if_pos h8, if_pos h8']
    exact lex_hex_escape c acc toks hlt
  rw [if_neg h8]
  by_cases h9 : c.toNat = 0x2028
  · have := char_of_toNat c 0x2028 h9; subst this; rfl
  by_cases h10 : c.toNat = 0x2029
  · have := char_of_toNat c 0x2029 h10; subst this; rfl
  have h8' : ¬ (c.toNat < 0x20 ∨ c = '<' ∨ c = '>' ∨ c = '&' ∨ c.toNat = 0x2028 ∨ c.toNat = 0x2029) := by
    intro h
    rcases h with h | h | h | h | h | h
    · exact h8 (Or.inl h)
    · exact h8 (Or.inr (Or.inl h))
    · exact h8 (Or.inr (Or.inr (Or.inl h)))
    · exact h8 (Or.inr (Or.inr (Or.inr h)))
    · exact h9 h
    · exact h10 h
  rw [if_neg h9, if_neg h10, if_neg h8']
  have hnlt : ¬ c.toNat < 0x20 := fun h => h8 (Or.inl h)
  simp [lexLoop, lexStep, h1, h2, hnlt]

theorem lex_chars (cs : List Char) (acc : List StrUnit) (toks : List Token) :
    lexLoop (cs.flatMap escapeChar) (.string acc, toks) =
      .ok (.string ((cs.map unitOf).reverse ++ acc), toks) := by
  induction cs generalizing acc with
  | nil => rfl
  | cons c cs ih =>
    simp only [List.flatMap_cons, lexLoop_append, lex_escapeChar, ih, List.map_cons,
      List.reverse_cons, List.append_assoc, List.singleton_append]

theorem unitOf_cases (c : Char) :
    unitOf c = .lit c ∨ (unitOf c = .esc c.toNat ∧ ¬ (0xD800 ≤ c.toNat ∧ c.toNat < 0xE000)) := by
  unfold unitOf
  split
  · exact Or.inl rfl
  · split
    · rename_i h
      refine Or.inr ⟨rfl, ?_⟩
      rcases h with h | h | h | h | h | h
      · omega
      · subst h; decide
      · subst h; decide
      · subst h; decide
      · omega
      · omega
    · exact Or.inl rfl

theorem decodeUnits_esc (u : Nat) (rest : List StrUnit) (h : ¬ (0xD800 ≤ u ∧ u < 0xE000)) :
    decodeUnits (.esc u :: rest) = Char.ofNat u :: decodeUnits rest := by
  cases rest with
  | nil => simp [decodeUnits, h]
  | cons r rs =>
    cases r with
    | lit c => simp [decodeUnits, h]
    | esc lo =>
      have h1 : ¬ (0xD800 ≤ u ∧ u < 0xDC00) := by omega
      have h2 : ¬ (0xDC00 ≤ u ∧ u < 0xE000) := by omega
      simp [decodeUnits, h1, h2]

theorem decodeUnits_unitOf (cs : List Char) : decodeUnits (cs.map unitOf) = cs := by
  induction cs with
  | nil => rfl
  | cons c cs ih =>
    rw [List.map_cons]
    rcases unitOf_cases c with h | ⟨h, hs⟩
    · rw [h]; simp [decodeUnits, ih]
    · rw [h, decodeUnits_esc _ _ hs, ih, Char.ofNat_toNat]

/-- A string literal is read back as the string. -/
theorem lex_quote (s : String) (rest : List Char) (toks : List Token) :
    lexLoop ((quote s).data ++ rest) (.top, toks) = lexLoop rest (.top, .str s :: toks) := by
  have h : (quote s).data ++ rest = '"' :: (s.data.flatMap escapeChar ++ '"' :: rest) := by
    simp [quote]
  rw [h, lexLoop]
  have h0 : lexStep (.top, toks) '"' = .ok (.string [], toks) := rfl
  rw [h0]
  simp only [lexLoop_append, lex_chars, List.append_nil, lexLoop]
  have h1 : lexStep (.string (List.map unitOf s.data).reverse, toks) '"' =
      .ok (.top, .str (String.mk (decodeUnits (List.map unitOf s.data).reverse.reverse)) :: toks) :=
    rfl
  rw [h1, List.reverse_reverse, decodeUnits_unitOf]

theorem lex_escapeRune (r : Option Char) (acc : List StrUnit) (toks : List Token) :
    lexLoop (escapeRune r) (.string acc, toks) = .ok (.string (unitOfRune r :: acc), toks) := by
  cases r with
  | none => rfl
  | some c => exact lex_escapeChar c acc toks

theorem lex_runes (rs : List (Option Char)) (acc : List StrUnit) (toks : List Token) :
    lexLoop (rs.flatMap escapeRune) (.string acc, toks) =
      .ok (.string ((rs.map unitOfRune).reverse ++ acc), toks) := by
  induction rs generalizing acc with
  | nil => rfl
  | cons r rs ih =>
    simp only [List.flatMap_cons, lexLoop_append, lex_escapeRune, ih, List.map_cons,
      List.reverse_cons, List.append_assoc, List.singleton_append]

theorem decodeUnits_unitOfRune (rs : List (Option Char)) :
    decodeUnits (rs.map unitOfRune) = rs.map (fun r => r.getD (Char.ofNat 0xFFFD)) := by
  induction rs with
  | nil => rfl
  | cons r rs ih =>
    rw [List.map_cons, List.map_cons]
    cases r with
    | none =>
      have h : unitOfRune none = .esc 0xFFFD := rfl
      rw [h, decodeUnits_esc _ _ (by omega), ih]
      rfl
    | some c =>
      have h : unitOfRune (some c) = unitOf c := rfl
      rw [h]
      rcases unitOf_cases c with h | ⟨h, hs⟩
      · rw [h]; simp [decodeUnits, ih]
      · rw [h, decodeUnits_esc _ _ hs, ih, Char.ofNat_toNat]
        rfl

/-- The literal written for a Go string is read back as the text it denotes. -/
theorem lex_quoteBytes (g : GoString) (rest : List Char) (toks : List Token) :
    lexLoop ((quoteBytes g).data ++ rest) (.top, toks) =
      lexLoop rest (.top, .str (sanitize g) :: toks) := by
  have h : (quoteBytes g).data ++ rest = '"' :: ((runes g).flatMap escapeRune ++ '"' :: rest) := by
    simp [quoteBytes]
  rw [h, lexLoop]
  have h0 : lexStep (.top, toks) '"' = .ok (.string [], toks) := rfl
  rw [h0]
  simp only [lexLoop_append, lex_runes, List.append_nil, lexLoop]
  have h1 : lexStep (.string (List.map unitOfRune (runes g)).reverse, toks) '"' =
      .ok (.top, .str (String.mk (decodeUnits (List.map unitOfRune (runes g)).reverse.reverse)) ::
        toks) :=
    rfl
  rw [h1, List.reverse_reverse, decodeUnits_unitOfRune]
  rfl

theorem digitChar_spec (k : Nat) (h : k < 10) :
    isDigit (Nat.digitChar k) = true ∧ (Nat.digitChar k).toNat - 48 = k ∧
      (Nat.digitChar k = '0' → k = 0) := by
  interval_cases k <;> decide

theorem natOfDigits_snoc (cs : List Char) (d : Char) :
    natOfDigits (cs ++ [d]) = natOfDigits cs * 10 + (d.toNat - 48) := by
  simp [natOfDigits, List.foldl_append]

theorem toDigitsCore_spec (fuel : Nat) : ∀ (n : Nat) (ds : List Char), n < fuel →
    ∃ c cs, Nat.toDigitsCore 10 fuel n ds = c :: cs ++ ds ∧
      (∀ x ∈ c :: cs, isDigit x = true) ∧ natOfDigits (c :: cs) = n ∧
      (c = '0' → cs = [] ∧ n = 0) := by
  induction fuel with
  | zero => intro n ds h; omega
  | succ fuel ih =>
    intro n ds h
    obtain ⟨hd1, hd2, hd3⟩ := digitChar_spec (n % 10) (Nat.mod_lt _ (by decide))
    unfold Nat.toDigitsCore
    by_cases h0 : n / 10 = 0
    · simp only [h0, if_true]
      refine ⟨Nat.digitChar (n % 10), [], rfl, ?_, ?_, ?_⟩
      · intro x hx
        simp at hx
        rw [hx]; exact hd1
      · simp [natOfDigits]
        omega
      · intro hc
        refine ⟨rfl, ?_⟩
        have := hd3 hc
        omega
    · simp only [h0, if_false]
      obtain ⟨c, cs, he, hall, hval, hz⟩ := ih (n / 10) (Nat.digitChar (n % 10) :: ds) (by omega)
      refine ⟨c, cs ++ [Nat.digitChar (n % 10)], ?_, ?_, ?_, ?_⟩
      · rw [he]; simp
      · intro x hx
        simp only [List.mem_cons, List.mem_append, List.mem_singleton, List.not_mem_nil,
          or_false] at hx
        rcases hx with hx | hx | hx
        · exact hall x (by simp [hx])
        · exact hall x (by simp [hx])
        · rw [hx]; exact hd1
      · rw [← List.cons_append, natOfDigits_snoc, hval]
        omega
      · intro hc
        exact absurd (hz hc).2 h0

/-- The decimal text of a natural number: digits, no leading zero, and its value. -/
theorem repr_spec (n : Nat) :
    ∃ c cs, (Nat.repr n).data = c :: cs ∧ (∀ x ∈ c :: cs, isDigit x = true) ∧
      natOfDigits (c :: cs) = n ∧ (c = '0' → cs = []) := by
  obtain ⟨c, cs, he, hall, hval, hz⟩ := toDigitsCore_spec (n + 1) n [] (by omega)
  refine ⟨c, cs, ?_, hall, hval, fun h => (hz h).1⟩
  simp [Nat.repr, Nat.toDigits, he, List.asString]

theorem isDigit_range (c : Char) (h : isDigit c = true) : 48 ≤ c.toNat ∧ c.toNat ≤ 57 := by
  simp only [isDigit, decide_eq_true_eq] at h
  exact ⟨h.1, h.2⟩

theorem lexTop_digit (c : Char) (toks : List Token) (h : isDigit c = true) :
    lexTop c toks = .ok (.number [c], toks) := by
  obtain ⟨h1, h2⟩ := isDigit_range c h
  have hc : c = Char.ofNat c.toNat := (Char.ofNat_toNat c).symm
  generalize c.toNat = k at h1 h2 hc
  subst hc
  interval_cases k <;> rfl

theorem isNumberChar_of_isDigit (c : Char) (h : isDigit c = true) : isNumberChar c = true := by
  simp [isNumberChar, h]

theorem lex_number_run (cs : List Char) (acc : List Char) (toks : List Token)
    (h : ∀ x ∈ cs, isNumberChar x = true) :
    lexLoop cs (.number acc, toks) = .ok (.number (cs.reverse ++ acc), toks) := by
  induction cs generalizing acc with
  | nil => rfl
  | cons c cs ih =>
    have hc : isNumberChar c = true := h c (by simp)
    simp only [lexLoop, lexStep, hc, if_true]
    rw [ih _ (fun x hx => h x (by simp [hx]))]
    simp

/-- The text of an integer: an optional minus sign, then digits without a
leading zero, whose value is the magnitude. -/
theorem Itoa_spec (i : Int) :
    ∃ c cs, (Itoa i).data = (if i < 0 then '-' :: c :: cs else c :: cs) ∧
      (∀ x ∈ c :: cs, isDigit x = true) ∧ natOfDigits (c :: cs) = i.natAbs ∧
      (c = '0' → cs = []) := by
  obtain ⟨c, cs, he, hall, hval, hz⟩ := repr_spec i.natAbs
  refine ⟨c, cs, ?_, hall, hval, hz⟩
  unfold Itoa
  split
  · rw [String.data_append, he]; rfl
  · exact he

theorem dropWhile_all (cs : List Char) (h : ∀ x ∈ cs, isDigit x = true) :
    cs.dropWhile isDigit = [] := by
  induction cs with
  | nil => rfl
  | cons c cs ih =>
    simp only [List.dropWhile, h c (by simp)]
    exact ih (fun x hx => h x (by simp [hx]))

theorem validNumber_digits (c : Char) (cs : List Char)
    (hall : ∀ x ∈ c :: cs, isDigit x = true) (hz : c = '0' → cs = []) :
    validNumber (c :: cs) = true ∧ validNumber ('-' :: c :: cs) = true := by
  have hc : isDigit c = true := hall c (by simp)
  have hne : c ≠ '-' := by
    intro h; subst h; exact absurd hc (by decide)
  have hbody : (match c :: cs with
      | '0' :: rest => validFracExp rest
      | d :: rest => if isDigit d then validFracExp ((d :: rest).dropWhile isDigit) else false
      | [] => false) = true := by
    by_cases h0 : c = '0'
    · rw [h0, hz h0]; rfl
    · have : (c :: cs).dropWhile isDigit = [] := dropWhile_all _ hall
      split
      · rename_i heq
        simp at heq
        exact absurd heq.1 h0
      · rename_i d rest _ heq
        simp at heq
        obtain ⟨rfl, rfl⟩ := heq
        simp [hc, this, validFracExp, validExp]
      · rename_i heq
        simp at heq
  constructor
  · unfold validNumber
    have : (match c :: cs with
        | '-' :: rest => rest
        | _ => c :: cs) = c :: cs := by
      split
      · rename_i heq
        simp at heq
        exact absurd heq.1 hne
      · rfl
    simp only [this]
    exact hbody
  · unfold validNumber
    exact hbody

theorem numberValue_Itoa (i : Int) : numberValue (Itoa i).data = .ok (.num i) := by
  obtain ⟨c, cs, he, hall, hval, hz⟩ := Itoa_spec i
  obtain ⟨hv1, hv2⟩ := validNumber_digits c cs hall hz
  have hc : isDigit c = true := hall c (by simp)
  have hne : c ≠ '-' := by
    intro h; subst h; exact absurd hc (by decide)
  have hallb : (c :: cs).all isDigit = true := by
    simpa [List.all_eq_true] using hall
  unfold numberValue
  by_cases hneg : i < 0
  · rw [he, if_pos hneg]
    simp only [hv2, if_true, hallb, hval]
    congr 2
    omega
  · rw [he, if_neg hneg]
    simp only [hv1, if_true]
    split
    · rename_i heq
      simp at heq
      exact absurd heq.1 hne
    · simp only [hallb, if_true, hval]
      congr 2
      omega

theorem lexLoop_cons (c : Char) (cs : List Char) (st : LexMode × List Token) :
    lexLoop (c :: cs) st =
      match lexStep st c with
      | .error e => .error e
      | .ok st' => lexLoop cs st' := rfl

theorem lex_delim_number (d : Char) (acc : List Char) (toks : List Token) (h : isDelim d) :
    lexStep (.number acc, toks) d = lexStep (.top, Token.number acc.reverse :: toks) d := by
  rcases h with h | h | h <;> subst h <;> rfl

theorem Itoa_numberChars (i : Int) :
    ∃ c cs, (Itoa i).data = c :: cs ∧ (c = '-' ∨ isDigit c = true) ∧
      ∀ x ∈ cs, isNumberChar x = true := by
  obtain ⟨c, cs, he, hall, _, _⟩ := Itoa_spec i
  by_cases hneg : i < 0
  · rw [if_pos hneg] at he
    refine ⟨'-', c :: cs, he, Or.inl rfl, fun x hx => isNumberChar_of_isDigit x (hall x hx)⟩
  · rw [if_neg hneg] at he
    refine ⟨c, cs, he, Or.inr (hall c (by simp)), fun x hx =>
      isNumberChar_of_isDigit x (hall x (by simp [hx]))⟩

/-- The text of an integer leaves the scanner inside a number token. -/
theorem lex_Itoa (i : Int) (toks : List Token) :
    lexLoop (Itoa i).data (.top, toks) = .ok (.number (Itoa i).data.reverse, toks) := by
  obtain ⟨c, cs, he, hc, hcs⟩ := Itoa_numberChars i
  rw [he, lexLoop_cons]
  have h0 : lexStep (.top, toks) c = .ok (.number [c], toks) := by
    rcases hc with hc | hc
    · subst hc; rfl
    · exact lexTop_digit c toks hc
  rw [h0]
  simp only []
  rw [lex_number_run cs [c] toks hcs]
  simp

theorem lex_entries (es : List (GoString × GoString)) (first : Bool) (rest : List Char)
    (toks : List Token) :
    lexLoop ((encodeEntries first es).data ++ '}' :: rest) (.top, toks) =
      lexLoop ('}' :: rest) (.top, (entryTokens first es).reverse ++ toks) := by
  induction es generalizing first toks with
  | nil => simp [encodeEntries, entryTokens]
  | cons e es ih =>
    obtain ⟨k, v⟩ := e
    have hc : ∀ T, lexStep (.top, T) ',' = .ok (.top, .comma :: T) := fun _ => rfl
    have hcol : ∀ T, lexStep (.top, T) ':' = .ok (.top, .colon :: T) := fun _ => rfl
    cases first with
    | true =>
      have h : (encodeEntries true ((k, v) :: es)).data ++ '}' :: rest =
          (quoteBytes k).data ++ ':' :: ((quoteBytes v).data ++
            ((encodeEntries false es).data ++ '}' :: rest)) := by
        simp [encodeEntries, String.data_append]
      rw [h, lex_quoteBytes, lexLoop_cons, hcol]
      simp only []
      rw [lex_quoteBytes, ih]
      simp [entryTokens]
    | false =>
      have h : (encodeEntries false ((k, v) :: es)).data ++ '}' :: rest =
          ',' :: ((quoteBytes k).data ++ ':' :: ((quoteBytes v).data ++
            ((encodeEntries false es).data ++ '}' :: rest))) := by
        simp [encodeEntries, String.data_append]
      rw [h, lexLoop_cons, hc]
      simp only []
      rw [lex_quoteBytes, lexLoop_cons, hcol]
      simp only []
      rw [lex_quoteBytes, ih]
      simp [entryTokens]

mutual
theorem lex_value (v : JSON) (d : Char) (rest : List Char) (toks : List Token)
    (hp : plain v = true) (hd : isDelim d) :
    lexLoop ((encode v).data ++ d :: rest) (.top, toks) =
      lexLoop (d :: rest) (.top, (tokens v).reverse ++ toks) := by
  cases v with
  | null =>
    rcases hd with h | h | h <;> subst h <;> rfl
  | bool b =>
    cases b <;> rcases hd with h | h | h <;> subst h <;> rfl
  | num n =>
    simp only [encode, tokens, lexLoop_append, lex_Itoa, List.reverse_singleton,
      List.singleton_append]
    rw [lexLoop_cons, lexLoop_cons, lex_delim_number _ _ _ hd, List.reverse_reverse]
  | numLit raw => simp [plain] at hp
  | bytes g =>
    simp only [encode, tokens, lex_quoteBytes, List.reverse_singleton, List.singleton_append]
  | bytesMap es =>
    have h : (encode (.bytesMap es)).data ++ d :: rest =
        '{' :: ((encodeEntries true es).data ++ '}' :: d :: rest) := by
      simp [encode, String.data_append]
    rw [h, lexLoop_cons]
    have h0 : lexStep (.top, toks) '{' = .ok (.top, .lbrace :: toks) := rfl
    rw [h0]
    simp only []
    rw [lex_entries es true (d :: rest) (.lbrace :: toks), lexLoop_cons]
    have h1 : ∀ T, lexStep (.top, T) '}' = .ok (.top, .rbrace :: T) := fun _ => rfl
    rw [h1]
    simp [tokens]
  | str s =>
    simp only [encode, tokens, lex_quote, List.reverse_singleton, List.singleton_append]
  | arr es =>
    have h : (encode (.arr es)).data ++ d :: rest =
        '[' :: ((encodeElems true es).data ++ ']' :: d :: rest) := by
      simp [encode, String.data_append]
    rw [h, lexLoop_cons]
    have h0 : lexStep (.top, toks) '[' = .ok (.top, .lbrack :: toks) := rfl
    rw [h0]
    simp only []
    rw [lex_elems es true (d :: rest) (.lbrack :: toks) (by simpa [plain] using hp), lexLoop_cons]
    have h1 : ∀ T, lexStep (.top, T) ']' = .ok (.top, .rbrack :: T) := fun _ => rfl
    rw [h1]
    simp [tokens]
  | obj ms =>
    have h : (encode (.obj ms)).data ++ d :: rest =
        '{' :: ((encodeMembers true ms).data ++ '}' :: d :: rest) := by
      simp [encode, String.data_append]
    rw [h, lexLoop_cons]
    have h0 : lexStep (.top, toks) '{' = .ok (.top, .lbrace :: toks) := rfl
    rw [h0]
    simp only []
    rw [lex_members ms true (d :: rest) (.lbrace :: toks) (by simpa [plain] using hp),
      lexLoop_cons]
    have h1 : ∀ T, lexStep (.top, T) '}' = .ok (.top, .rbrace :: T) := fun _ => rfl
    rw [h1]
    simp [tokens]
theorem lex_elems (es : List JSON) (first : Bool) (rest : List Char) (toks : List Token)
    (hp : plainElems es = true) :
    lexLoop ((encodeElems first es).data ++ ']' :: rest) (.top, toks) =
      lexLoop (']' :: rest) (.top, (elemTokens first es).reverse ++ toks) := by
  cases es with
  | nil => simp [encodeElems, elemTokens]
  | cons e es =>
    simp only [plainElems, Bool.and_eq_true] at hp
    have hnext : ∃ d rest', (encodeElems false es).data ++ ']' :: rest = d :: rest' ∧ isDelim d := by
      cases es with
      | nil => exact ⟨']', rest, by simp [encodeElems], Or.inr (Or.inl rfl)⟩
      | cons e' es' =>
        exact ⟨',', _, by simp [encodeElems, String.data_append]; rfl, Or.inl rfl⟩
    obtain ⟨d, rest', hd, hdel⟩ := hnext
    have hc : ∀ T, lexStep (.top, T) ',' = .ok (.top, .comma :: T) := fun _ => rfl
    cases first with
    | true =>
      have h : (encodeElems true (e :: es)).data ++ ']' :: rest =
          (encode e).data ++ ((encodeElems false es).data ++ ']' :: rest) := by
        simp [encodeElems, String.data_append]
      rw [h, hd, lex_value e d rest' toks hp.1 hdel, ← hd,
        lex_elems es false rest _ hp.2]
      simp [elemTokens]
    | false =>
      have h : (encodeElems false (e :: es)).data ++ ']' :: rest =
          ',' :: ((encode e).data ++ ((encodeElems false es).data ++ ']' :: rest)) := by
        simp [encodeElems, String.data_append]
      rw [h, lexLoop_cons, hc]
      simp only []
      rw [hd, lex_value e d rest' _ hp.1 hdel, ← hd, lex_elems es false rest _ hp.2]
      simp [elemTokens]
theorem lex_members (ms : List (String × JSON)) (first : Bool) (rest : List Char)
    (toks : List Token) (hp : plainMembers ms = true) :
    lexLoop ((encodeMembers first ms).data ++ '}' :: rest) (.top, toks) =
      lexLoop ('}' :: rest) (.top, (memberTokens first ms).reverse ++ toks) := by
  cases ms with
  | nil => simp [encodeMembers, memberTokens]
  | cons m ms =>
    obtain ⟨k, v⟩ := m
    simp only [plainMembers, Bool.and_eq_true] at hp
    have hnext : ∃ d rest', (encodeMembers false ms).data ++ '}' :: rest = d :: rest' ∧
        isDelim d := by
      cases ms with
      | nil => exact ⟨'}', rest, by simp [encodeMembers], Or.inr (Or.inr rfl)⟩
      | cons m' ms' =>
        obtain ⟨k', v'⟩ := m'
        exact ⟨',', _, by simp [encodeMembers, String.data_append]; rfl, Or.inl rfl⟩
    obtain ⟨d, rest', hd, hdel⟩ := hnext
    have hc : ∀ T, lexStep (.top, T) ',' = .ok (.top, .comma :: T) := fun _ => rfl
    have hcol : ∀ T, lexStep (.top, T) ':' = .ok (.top, .colon :: T) := fun _ => rfl
    cases first with
    | true =>
      have h : (encodeMembers true ((k, v) :: ms)).data ++ '}' :: rest =
          (quote k).data ++ ':' :: ((encode v).data ++
            ((encodeMembers false ms).data ++ '}' :: rest)) := by
        simp [encodeMembers, String.data_append]
      rw [h, lex_quote, lexLoop_cons, hcol]
      simp only []
      rw [hd, lex_value v d rest' _ hp.1 hdel, ← hd, lex_members ms false rest _ hp.2]
      simp [memberTokens]
    | false =>
      have h : (encodeMembers false ((k, v) :: ms)).data ++ '}' :: rest =
          ',' :: ((quote k).data ++ ':' :: ((encode v).data ++
            ((encodeMembers false ms).data ++ '}' :: rest))) := by
        simp [encodeMembers, String.data_append]
      rw [h, lexLoop_cons, hc]
      simp only []
      rw [lex_quote, lexLoop_cons, hcol]
      simp only []
      rw [hd, lex_value v d rest' _ hp.1 hdel, ← hd, lex_members ms false rest _ hp.2]
      simp [memberTokens]
end

/-- The scanner reads the compact text of a document as its tokens. -/
theorem lex_encode (v : JSON) (hp : plain v = true) : lex (encode v) = .ok (tokens v) := by
  cases v with
  | null => rfl
  | bool b => cases b <;> rfl
  | num n =>
    unfold lex
    simp only [encode, lex_Itoa, tokens]
    simp
  | numLit raw => simp [plain] at hp
  | bytes g =>
    unfold lex
    have := lex_quoteBytes g [] []
    simp only [List.append_nil] at this
    have he : encode (.bytes g) = quoteBytes g := by simp [encode]
    rw [he, this]
    rfl
  | bytesMap es =>
    unfold lex
    have h : (encode (.bytesMap es)).data = '{' :: ((encodeEntries true es).data ++ '}' :: []) := by
      simp [encode, String.data_append]
    have h0 : lexStep (.top, []) '{' = .ok (.top, [.lbrace]) := rfl
    have h1 : ∀ T, lexStep (.top, T) '}' = .ok (.top, .rbrace :: T) := fun _ => rfl
    rw [h, lexLoop_cons, h0]
    simp only []
    rw [lex_entries es true [] _, lexLoop_cons, h1]
    simp [lexLoop, tokens]
  | str s =>
    unfold lex
    have := lex_quote s [] []
    simp only [List.append_nil] at this
    have he : encode (.str s) = quote s := by simp [encode]
    rw [he, this]
    rfl
  | arr es =>
    unfold lex
    have h : (encode (.arr es)).data = '[' :: ((encodeElems true es).data ++ ']' :: []) := by
      simp [encode, String.data_append]
    have h0 : lexStep (.top, []) '[' = .ok (.top, [.lbrack]) := rfl
    have h1 : ∀ T, lexStep (.top, T) ']' = .ok (.top, .rbrack :: T) := fun _ => rfl
    rw [h, lexLoop_cons, h0]
    simp only []
    rw [lex_elems es true [] _ (by simpa [plain] using hp), lexLoop_cons, h1]
    simp [lexLoop, tokens]
  | obj ms =>
    unfold lex
    have h : (encode (.obj ms)).data = '{' :: ((encodeMembers true ms).data ++ '}' :: []) := by
      simp [encode, String.data_append]
    have h0 : lexStep (.top, []) '{' = .ok (.top, [.lbrace]) := rfl
    have h1 : ∀ T, lexStep (.top, T) '}' = .ok (.top, .rbrace :: T) := fun _ => rfl
    rw [h, lexLoop_cons, h0]
    simp only []
    rw [lex_members ms true [] _ (by simpa [plain] using hp), lexLoop_cons, h1]
    simp [lexLoop, tokens]

theorem parseLoop_cons (t : Token) (ts : List Token) (st : PState) :
    parseLoop (t :: ts) st =
      match parseStep st t with
      | .error e => .error e
      | .ok st' => parseLoop ts st' := rfl

/-- The first token of a value is not a closing bracket, so it is read the same
way right after `[` as where a value must start. -/
theorem parse_first (v : JSON) (rest : List Token) (stack : List Frame) :
    parseLoop (tokens v ++ rest) (.arrFirst stack) =
      parseLoop (tokens v ++ rest) (.value (Frame.arr [] :: stack)) := by
  cases v with
  | bool b => cases b <;> rfl
  | _ => rfl

theorem parse_entries (es : List (GoString × GoString)) (first : Bool)
    (acc : List (String × JSON)) (stack : List Frame) (rest : List Token) :
    parseLoop (entryTokens first es ++ .rbrace :: rest)
        (if first then .objFirst stack else .objNext acc stack) =
      parseLoop rest
        (complete (.obj ((if first then [] else acc.reverse) ++ denoteEntries es)) stack) := by
  induction es generalizing first acc with
  | nil =>
    cases first <;> simp [entryTokens, parseLoop_cons, parseStep, denoteEntries]
  | cons e es ih =>
    obtain ⟨k, v⟩ := e
    cases first with
    | true =>
      simp only [entryTokens, if_true, List.nil_append, List.cons_append, List.append_assoc,
        parseLoop_cons, parseStep, parseValue, complete]
      have := ih false [(sanitize k, .str (sanitize v))]
      simpa [denoteEntries] using this
    | false =>
      simp only [entryTokens, Bool.false_eq_true, if_false, List.cons_append, List.nil_append,
        List.append_assoc, parseLoop_cons, parseStep, parseValue, complete]
      have := ih false ((sanitize k, .str (sanitize v)) :: acc)
      simpa [denoteEntries] using this

mutual
theorem parse_value (v : JSON) (stack : List Frame) (rest : List Token)
    (hp : plain v = true) (hdepth : depth v + stack.length ≤ maxNestingDepth) :
    parseLoop (tokens v ++ rest) (.value stack) =
      parseLoop rest (complete (denote v) stack) := by
  cases v with
  | null => rfl
  | bool b => cases b <;> rfl
  | num n =>
    simp only [tokens, List.singleton_append, parseLoop_cons, parseStep, parseValue,
      numberValue_Itoa, denote]
  | numLit raw => simp [plain] at hp
  | bytes g => rfl
  | bytesMap es =>
    simp only [depth] at hdepth
    have h0 : parseStep (.value stack) .lbrace = .ok (.objFirst stack) := by
      simp only [parseStep, parseValue]
      rw [if_neg (by omega)]
    simp only [tokens, List.cons_append, List.append_assoc, List.singleton_append,
      parseLoop_cons, h0]
    have := parse_entries es true [] stack rest
    simpa [denote] using this
  | str s => rfl
  | arr es =>
    simp only [depth] at hdepth
    have h0 : parseStep (.value stack) .lbrack = .ok (.arrFirst stack) := by
      simp only [parseStep, parseValue]
      rw [if_neg (by omega)]
    simp only [tokens, List.cons_append, List.append_assoc, List.singleton_append,
      parseLoop_cons, h0]
    have := parse_elems es true [] stack rest (by simpa [plain] using hp) (by omega)
    simpa [denote] using this
  | obj ms =>
    simp only [depth] at hdepth
    have h0 : parseStep (.value stack) .lbrace = .ok (.objFirst stack) := by
      simp only [parseStep, parseValue]
      rw [if_neg (by omega)]
    simp only [tokens, List.cons_append, List.append_assoc, List.singleton_append,
      parseLoop_cons, h0]
    have := parse_members ms true [] stack rest (by simpa [plain] using hp) (by omega)
    simpa [denote] using this
theorem parse_elems (es : List JSON) (first : Bool) (acc : List JSON) (stack : List Frame)
    (rest : List Token) (hp : plainElems es = true)
    (hdepth : depthElems es + (stack.length + 1) ≤ maxNestingDepth) :
    parseLoop (elemTokens first es ++ .rbrack :: rest)
        (if first then .arrFirst stack else .arrNext acc stack) =
      parseLoop rest
        (complete (.arr ((if first then [] else acc.reverse) ++ denoteElems es)) stack) := by
  cases es with
  | nil =>
    cases first <;> simp [elemTokens, parseLoop_cons, parseStep, denoteElems]
  | cons e es =>
    simp only [plainElems, Bool.and_eq_true] at hp
    simp only [depthElems] at hdepth
    cases first with
    | true =>
      simp only [elemTokens, if_true, List.nil_append, List.append_assoc]
      rw [parse_first, parse_value e (Frame.arr [] :: stack) _ hp.1 (by simp; omega)]
      have := parse_elems es false [denote e] stack rest hp.2 (by omega)
      simpa [complete, denoteElems] using this
    | false =>
      simp only [elemTokens, List.append_assoc, List.singleton_append, parseLoop_cons, parseStep]
      simp only [Bool.false_eq_true, if_false, List.cons_append, List.nil_append,
        parseLoop_cons, parseStep]
      rw [parse_value e (Frame.arr acc :: stack) _ hp.1 (by simp; omega)]
      have := parse_elems es false (denote e :: acc) stack rest hp.2 (by omega)
      simpa [complete, denoteElems] using this
theorem parse_members (ms : List (String × JSON)) (first : Bool) (acc : List (String × JSON))
    (stack : List Frame) (rest : List Token) (hp : plainMembers ms = true)
    (hdepth : depthMembers ms + (stack.length + 1) ≤ maxNestingDepth) :
    parseLoop (memberTokens first ms ++ .rbrace :: rest)
        (if first then .objFirst stack else .objNext acc stack) =
      parseLoop rest
        (complete (.obj ((if first then [] else acc.reverse) ++ denoteMembers ms)) stack) := by
  cases ms with
  | nil =>
    cases first <;> simp [memberTokens, parseLoop_cons, parseStep, denoteMembers]
  | cons m ms =>
    obtain ⟨k, v⟩ := m
    simp only [plainMembers, Bool.and_eq_true] at hp
    simp only [depthMembers] at hdepth
    cases first with
    | true =>
      simp only [memberTokens, if_true, List.nil_append, List.cons_append, List.append_assoc,
        parseLoop_cons, parseStep]
      rw [parse_value v (Frame.obj [] k :: stack) _ hp.1 (by simp; omega)]
      have := parse_members ms false [(k, denote v)] stack rest hp.2 (by omega)
      simpa [complete, denoteMembers] using this
    | false =>
      simp only [memberTokens, Bool.false_eq_true, if_false, List.cons_append, List.nil_append,
        List.append_assoc, parseLoop_cons, parseStep]
      rw [parse_value v (Frame.obj acc k :: stack) _ hp.1 (by simp; omega)]
      have := parse_members ms false ((k, denote v) :: acc) stack rest hp.2 (by omega)
      simpa [complete, denoteMembers] using this
end

/-- Round trip: the compact text of a document without fractional numbers, nested
no deeper than the scanner allows, is read back as the document, each Go string
of it as the text it denotes. -/
theorem parseJSON_encode (v : JSON) (hp : plain v = true) (hdepth : depth v ≤ maxNestingDepth) :
    parseJSON (encode v) = .ok (denote v) := by
  unfold parseJSON
  rw [lex_encode v hp]
  have := parse_value v [] [] hp (by simpa using hdepth)
  simp only [List.append_nil] at this
  simp only [this, parseLoop, complete]

theorem serverEnvelopeText_eq (id : Int) (name uuid : String) :
    serverEnvelopeText id name uuid = encode (serverEnvelope id name uuid) := by
  have h1 : quote "object" = "\"object\"" := by decide
  have h2 : quote "server" = "\"server\"" := by decide
  have h3 : quote "attributes" = "\"attributes\"" := by decide
  have h4 : quote "id" = "\"id\"" := by decide
  have h5 : quote "name" = "\"name\"" := by decide
  have h6 : quote "uuid" = "\"uuid\"" := by decide
  apply String.ext
  simp [serverEnvelopeText, serverEnvelope, encode, encodeMembers, h1, h2, h3, h4, h5, h6,
    String.data_append]

theorem parseJSON_serverEnvelopeText (id : Int) (name uuid : String) :
    parseJSON (serverEnvelopeText id name uuid) = .ok (serverEnvelope id name uuid) := by
  rw [serverEnvelopeText_eq]
  exact parseJSON_encode _ (by simp [serverEnvelope, plain, plainMembers])
    (by simp [serverEnvelope, depth, depthMembers, maxNestingDepth])

theorem plainMembers_append (xs ys : List (String × JSON)) :
    plainMembers (xs ++ ys) = (plainMembers xs && plainMembers ys) := by
  induction xs with
  | nil => simp [plainMembers]
  | cons x xs ih =>
    obtain ⟨k, v⟩ := x
    simp [plainMembers, ih, Bool.and_assoc]

theorem depthMembers_append (xs ys : List (String × JSON)) :
    depthMembers (xs ++ ys) = max (depthMembers xs) (depthMembers ys) := by
  induction xs with
  | nil => simp [depthMembers]
  | cons x xs ih =>
    obtain ⟨k, v⟩ := x
    simp [depthMembers, ih, Nat.max_assoc]

theorem plain_intMember (k : String) (n : Int) : plainMembers (intMember k n) = true := by
  unfold intMember; split <;> simp [plainMembers, plain]

theorem depth_intMember (k : String) (n : Int) : depthMembers (intMember k n) = 0 := by
  unfold intMember; split <;> simp [depthMembers, depth]

theorem plain_bytesMember (k : String) (g : GoString) :
    plainMembers (bytesMember k g) = true := by
  unfold bytesMember; split <;> simp [plainMembers, plain]

theorem depth_bytesMember (k : String) (g : GoString) :
    depthMembers (bytesMember k g) = 0 := by
  unfold bytesMember; split <;> simp [depthMembers, depth]

theorem plain_strMember (k x : String) : plainMembers (strMember k x) = true := by
  unfold strMember; split <;> simp [plainMembers, plain]

theorem depth_strMember (k x : String) : depthMembers (strMember k x) = 0 := by
  unfold strMember; split <;> simp [depthMembers, depth]

theorem plain_mapMember (k : String) (m : Option (List (GoString × GoString))) :
    plainMembers (mapMember k m) = true := by
  unfold mapMember
  split <;> simp [plainMembers, plain]

theorem depth_mapMember (k : String) (m : Option (List (GoString × GoString))) :
    depthMembers (mapMember k m) ≤ 1 := by
  unfold mapMember
  split <;> simp [depthMembers, depth]

theorem plain_members (c : ServerChange) : plainMembers c.members = true := by
  simp [ServerChange.members, plainMembers_append, plain_intMember, plain_bytesMember,
    plain_mapMember, plainMembers, plain, ServerLimits.toJSON, ServerFeatureLimits.toJSON,
    ServerAllocation.toJSON]

theorem depth_members (c : ServerChange) : depthMembers c.members ≤ 1 := by
  have h := depth_mapMember "environment" c.Environment
  simp [ServerChange.members, depthMembers_append, depth_intMember, depth_bytesMember,
    depthMembers, depth, ServerLimits.toJSON, ServerFeatureLimits.toJSON,
    ServerAllocation.toJSON, h]

/-- The payload of a create request is read back as its members, each Go string
as the text it denotes. -/
theorem parseJSON_payload (c : ServerChange) :
    parseJSON (encode (.obj c.members)) = .ok (.obj (denoteMembers c.members)) := by
  have h := parseJSON_encode (.obj c.members) (by simpa [plain] using plain_members c)
    (by have := depth_members c; simp only [depth, maxNestingDepth]; omega)
  simpa [denote] using h

theorem parseJSON_echoEnvelope (c : ServerChange) :
    parseJSON (encode (echoEnvelope (denoteMembers c.members))) =
      .ok (echoEnvelope (denoteMembers c.members)) := by
  have h : denote (echoEnvelope (denoteMembers c.members)) =
      echoEnvelope (denoteMembers c.members) := by
    simp only [echoEnvelope, echo_members]
    unfold strMember intMember
    split <;> split <;> split <;> rfl
  rw [parseJSON_encode, h]
  · simp only [echoEnvelope, echo_members, plain, plainMembers, Bool.true_and, Bool.and_true]
    unfold strMember intMember
    split <;> split <;> split <;> simp [plain, plainMembers]
  · simp only [echoEnvelope, echo_members, depth, depthMembers]
    unfold strMember intMember
    split <;> split <;> split <;> simp [depth, depthMembers, maxNestingDepth]

/-! ## The claims -/

/-- C2: the delete accessors return exactly the dispatcher's error, whatever the
body is: for every id and every outcome `(body, err)` of the dispatcher,
`DeleteUser id` and `DeleteServer id` return `err`; so they return a non-nil
error if and only if the dispatcher did. -/
theorem delete_returns_dispatcher_error (id : Int) (p : Panel) :
    (∀ body err, p.answer p.log ⟨"users/" ++ Itoa id, "delete", none⟩ = ⟨body, err⟩ →
      (DeleteUser id p).1 = err) ∧
    (∀ body err, p.answer p.log ⟨"servers/" ++ Itoa id, "delete", none⟩ = ⟨body, err⟩ →
      (DeleteServer id p).1 = err) ∧
    ((DeleteUser id p).1 ≠ none ↔
      (p.answer p.log ⟨"users/" ++ Itoa id, "delete", none⟩).err ≠ none) ∧
    ((DeleteServer id p).1 ≠ none ↔
      (p.answer p.log ⟨"servers/" ++ Itoa id, "delete", none⟩).err ≠ none) := by
  rw [DeleteUser_run, DeleteServer_run]
  refine ⟨?_, ?_, Iff.rfl, Iff.rfl⟩
  · intro body err h
    simp [discard, h]
  · intro body err h
    simp [discard, h]

/-- C2, the scenario of the spec: `DeleteUser(7)` against a dispatcher that
returns an empty body and no error (HTTP 204) returns a nil error. -/
theorem delete_user_7_no_content : (DeleteUser 7 (constPanel "" none)).1 = none :=
  (delete_returns_dispatcher_error 7 (constPanel "" none)).1 "" none rfl

/-- C3: when the dispatcher answers the create request with the error `e`,
`CreateServer c` returns exactly `e` (with the zero-valued Server). -/
theorem CreateServer_returns_dispatcher_error (env : Env) (c : ServerChange) (e : Error)
    (p : Panel)
    (h : (p.answer p.log ⟨"servers", "post", some (encode (.obj c.members))⟩).err = some e) :
    (CreateServer env c p).1 = ({}, some e) := by
  rw [CreateServer_run]
  simp [exchange, h]

/-- C3, the scenario of the spec: a ServerChange with an empty name, answered by
the PanelError with code `ValidationException`, makes `CreateServer` return that
PanelError. -/
theorem CreateServer_validation_exception :
    (CreateServer stdEnv {} (constPanel "" (some validationError))).1.2 =
      some (.Api (.PanelError "ValidationException" "The name field is required.")) :=
  congrArg Prod.snd
    (CreateServer_returns_dispatcher_error stdEnv {} validationError
      (constPanel "" (some validationError)) rfl)

/-- C5: every server accessor issues exactly one dispatcher request, with the
path and verb of its template, `{id}` being the decimal rendering of `id`
(negative ones included). -/
theorem server_accessors_issue_one_request (env : Env) (c : ServerChange) (id : Int)
    (p : Panel) :
    issues p (GetServers env p).2 "servers" "GET" ∧
    issues p (GetServer env id p).2 ("servers/" ++ Itoa id) "GET" ∧
    issues p (GetServerAllocations id p).2 ("servers/" ++ Itoa id ++ "?include=allocations") "GET" ∧
    issues p (CreateServer env c p).2 "servers" "POST" ∧
    issues p (EditServerDetails env c id p).2 ("servers/" ++ Itoa id ++ "/details") "PATCH" ∧
    issues p (EditServerBuild env c id p).2 ("servers/" ++ Itoa id ++ "/build") "PATCH" ∧
    issues p (EditServerStartup env c id p).2 ("servers/" ++ Itoa id ++ "/startup") "PATCH" ∧
    issues p (DeleteServer id p).2 ("servers/" ++ Itoa id) "DELETE" := by
  rw [GetServers_run, GetServer_run, GetServerAllocations_run, CreateServer_run,
    EditServerDetails_run, EditServerBuild_run, EditServerStartup_run, DeleteServer_run]
  exact ⟨issues_exchange _ _ _ p, issues_exchange _ _ _ p, issues_exchange _ _ _ p,
    issues_exchange _ _ _ p, issues_exchange _ _ _ p, issues_exchange _ _ _ p,
    issues_exchange _ _ _ p, issues_discard _ p⟩

/-- C9: `GetUserByPage` is the same function as `GetUser`: for every integer `n`
it issues the single request `users/{n}`, GET, without a body, and returns the
same result; the page number is used as a user id. -/
theorem GetUserByPage_eq_GetUser (env : Env) (n : Int) (p : Panel) :
    GetUserByPage env n p = GetUser env n p ∧
    (GetUserByPage env n p).2.log = p.log ++ [⟨"users/" ++ Itoa n, "get", none⟩] ∧
    (GetUser env n p).2.log = p.log ++ [⟨"users/" ++ Itoa n, "get", none⟩] := by
  refine ⟨rfl, ?_, ?_⟩
  · rw [GetUserByPage_run]; rfl
  · rw [GetUser_run]; rfl

/-- C1: the text `{"object":"server","attributes":{"id":id,"name":name,"uuid":uuid}}`
is a JSON text of the envelope with that id, name and uuid; and whenever the
dispatcher answers the request of `GetServer id` with no error and a body that is
a JSON text of that envelope, `GetServer id` returns a nil error and a Server with
`Attributes.ID = id`, `Attributes.Name = name`, `Attributes.UUID = uuid`. -/
theorem GetServer_decodes_envelope (env : Env) (id : Int) (name uuid : String) (p : Panel)
    (hid : isInt id = true) :
    parseJSON (serverEnvelopeText id name uuid) = .ok (serverEnvelope id name uuid) ∧
    ∀ body, p.answer p.log ⟨"servers/" ++ Itoa id, "get", none⟩ = ⟨body, none⟩ →
      parseJSON body = .ok (serverEnvelope id name uuid) →
      (GetServer env id p).1.2 = none ∧
      (GetServer env id p).1.1.Attributes.ID = id ∧
      (GetServer env id p).1.1.Attributes.Name = name ∧
      (GetServer env id p).1.1.Attributes.UUID = uuid := by
  refine ⟨parseJSON_serverEnvelopeText id name uuid, ?_⟩
  intro body hans hbody
  have hdec : Server.decode env (serverEnvelope id name uuid) {} none =
      ⟨{ Object := "server", Attributes := { ID := id, Name := name, UUID := uuid } }, none, none⟩ := by
    unfold Server.decode decodeStruct serverEnvelope
    simp only []
    rw [decodeMembers_cons _ _ "object" _ _ _ _ "object" ⟨{ Object := "server" }, none, none⟩
      (by decide) rfl rfl]
    rw [decodeMembers_cons _ _ "attributes" _ _ _ _ "attributes"
      ⟨{ Object := "server", Attributes := { ID := id, Name := name, UUID := uuid } }, none, none⟩
      (by decide)
      (by simp [Server.field, ServerAttributes_decode_id_name_uuid env id name uuid hid,
            Decoded.map]) rfl]
    rfl
  rw [GetServer_run]
  simp [exchange, hans, Unmarshal, hbody, hdec]

/-- C1, the scenario of the spec: `GetServer(42)` against the body
`{"object":"server","attributes":{"id":42,"name":"Survival","uuid":"abc-123"}}`. -/
theorem GetServer_42_survival :
    serverEnvelopeText 42 "Survival" "abc-123" = survivalBody ∧
    (GetServer stdEnv 42 (constPanel survivalBody none)).1.2 = none ∧
    (GetServer stdEnv 42 (constPanel survivalBody none)).1.1.Attributes.ID = 42 ∧
    (GetServer stdEnv 42 (constPanel survivalBody none)).1.1.Attributes.Name = "Survival" ∧
    (GetServer stdEnv 42 (constPanel survivalBody none)).1.1.Attributes.UUID = "abc-123" :=
  ⟨by decide,
    (GetServer_decodes_envelope stdEnv 42 "Survival" "abc-123" (constPanel survivalBody none)
      (by decide)).2 survivalBody rfl (by rfl)⟩

/-- C7 as stated fails for a name that is not valid UTF-8.  At
`ServerChange{Name: "\xff"}` the payload `CreateServer` sends is
`{"name":"\ufffd","limits":{},"feature_limits":{},"allocation":{}}`, whose `name`
member is the string U+FFFD; the dispatcher answers with no error and
`{"object":"server","attributes":{"name":"\ufffd"}}`, the envelope that echoes the
`name` member of that payload and no `user` or `egg` member, as the payload has
none.  `CreateServer` returns a nil error and a Server whose `Attributes.Name` is
the string U+FFFD, the three bytes `ef bf bd`, and not the one byte `ff` of
`c.Name`. -/
theorem CreateServer_invalid_name_not_returned :
    validUTF8 invalidName = false ∧
    Marshal ServerChange.toJSON { Name := invalidName } = .ok invalidNamePayload ∧
    parseJSON invalidNamePayload =
      .ok (.obj [("name", .str "\uFFFD"), ("limits", .obj []), ("feature_limits", .obj []),
        ("allocation", .obj [])]) ∧
    parseJSON invalidNameEcho =
      .ok (echoEnvelope [("name", .str "\uFFFD"), ("limits", .obj []),
        ("feature_limits", .obj []), ("allocation", .obj [])]) ∧
    (CreateServer stdEnv { Name := invalidName } (constPanel invalidNameEcho none)).2.log =
      [⟨"servers", "post", some invalidNamePayload⟩] ∧
    (CreateServer stdEnv { Name := invalidName } (constPanel invalidNameEcho none)).1.2 = none ∧
    (CreateServer stdEnv { Name := invalidName }
      (constPanel invalidNameEcho none)).1.1.Attributes.Name = "\uFFFD" ∧
    utf8 (CreateServer stdEnv { Name := invalidName }
      (constPanel invalidNameEcho none)).1.1.Attributes.Name = [0xef, 0xbf, 0xbd] ∧
    utf8 (CreateServer stdEnv { Name := invalidName }
      (constPanel invalidNameEcho none)).1.1.Attributes.Name ≠ invalidName ∧
    (CreateServer stdEnv { Name := invalidName }
      (constPanel invalidNameEcho none)).1.1.Attributes.User = 0 ∧
    (CreateServer stdEnv { Name := invalidName }
      (constPanel invalidNameEcho none)).1.1.Attributes.Egg = 0 := by
  refine ⟨?_, ?_, ?_, ?_, ?_, ?_, ?_, ?_, ?_, ?_, ?_⟩ <;> first | rfl | decide

/-- C7, amended: round trip on server creation for a name that is valid UTF-8.
The payload `CreateServer` sends is a JSON text, of the members
`denoteMembers c.members`; the envelope whose attributes echo the `name`, `user`
and `egg` members of that payload (a member left out of the payload is left out
of the echo) has a JSON text; and whenever the dispatcher answers the create
request with no error and a JSON text of that envelope, `CreateServer c` returns a
nil error and a Server whose `Attributes.Name` has the bytes of `c.Name`, with
`Attributes.User = c.User` and `Attributes.Egg = c.Egg`, zero values included. -/
theorem CreateServer_echo_round_trip_utf8 (env : Env) (c : ServerChange) (p : Panel)
    (hn : validUTF8 c.Name = true) (hu : isInt c.User = true) (he : isInt c.Egg = true) :
    parseJSON (encode (.obj c.members)) = .ok (.obj (denoteMembers c.members)) ∧
    parseJSON (encode (echoEnvelope (denoteMembers c.members))) =
      .ok (echoEnvelope (denoteMembers c.members)) ∧
    ∀ resp, p.answer p.log ⟨"servers", "post", some (encode (.obj c.members))⟩ = ⟨resp, none⟩ →
      parseJSON resp = .ok (echoEnvelope (denoteMembers c.members)) →
      (CreateServer env c p).2.log =
        p.log ++ [⟨"servers", "post", some (encode (.obj c.members))⟩] ∧
      (CreateServer env c p).1.2 = none ∧
      utf8 (CreateServer env c p).1.1.Attributes.Name = c.Name ∧
      (CreateServer env c p).1.1.Attributes.User = c.User ∧
      (CreateServer env c p).1.1.Attributes.Egg = c.Egg := by
  refine ⟨parseJSON_payload c, parseJSON_echoEnvelope c, ?_⟩
  intro resp hans hresp
  have hdec : Server.decode env (echoEnvelope (denoteMembers c.members)) {} none =
      ⟨{ Object := "server",
         Attributes := { Name := sanitize c.Name, User := c.User, Egg := c.Egg } },
        none, none⟩ := by
    unfold Server.decode decodeStruct echoEnvelope
    simp only []
    rw [decodeMembers_cons _ _ "object" _ _ _ _ "object" ⟨{ Object := "server" }, none, none⟩
      (by decide) rfl rfl]
    rw [decodeMembers_cons _ _ "attributes" _ _ _ _ "attributes"
      ⟨{ Object := "server",
         Attributes := { Name := sanitize c.Name, User := c.User, Egg := c.Egg } }, none, none⟩
      (by decide)
      (by simp [Server.field, ServerAttributes_decode_echo env c hu he, Decoded.map]) rfl]
    rfl
  rw [CreateServer_run]
  refine ⟨rfl, ?_⟩
  simp [exchange, hans, Unmarshal, hresp, hdec, utf8_sanitize c.Name hn]

/-- C7, amended, at a ServerChange with a name, an egg and the zero user: the
payload has no `user` member, the echo
`{"object":"server","attributes":{"name":"Survival","egg":5}}` has none, and the
three fields come back. -/
theorem CreateServer_echo_survival :
    validUTF8 (utf8 "Survival") = true ∧
    encode (echoEnvelope (denoteMembers (ServerChange.members
      { Name := utf8 "Survival", Egg := 5 }))) = echoBody ∧
    (CreateServer stdEnv { Name := utf8 "Survival", Egg := 5 }
      (constPanel echoBody none)).1.1.Attributes.Name = "Survival" ∧
    (CreateServer stdEnv { Name := utf8 "Survival", Egg := 5 }
      (constPanel echoBody none)).2.log = [⟨"servers", "post", some survivalPayload⟩] ∧
    (CreateServer stdEnv { Name := utf8 "Survival", Egg := 5 }
      (constPanel echoBody none)).1.2 = none ∧
    utf8 (CreateServer stdEnv { Name := utf8 "Survival", Egg := 5 }
      (constPanel echoBody none)).1.1.Attributes.Name = utf8 "Survival" ∧
    (CreateServer stdEnv { Name := utf8 "Survival", Egg := 5 }
      (constPanel echoBody none)).1.1.Attributes.User = 0 ∧
    (CreateServer stdEnv { Name := utf8 "Survival", Egg := 5 }
      (constPanel echoBody none)).1.1.Attributes.Egg = 5 :=
  ⟨validUTF8_utf8 "Survival", by decide, by decide,
    (CreateServer_echo_round_trip_utf8 stdEnv { Name := utf8 "Survival", Egg := 5 }
      (constPanel echoBody none) (validUTF8_utf8 "Survival") (by decide)
      (by decide)).2.2 echoBody rfl (by rfl)⟩

/-- C6: the RequestSpec invariant over the fifteen accessors: every request one of
them hands to the dispatcher has no body when the verb is GET or DELETE, and a
non-empty body, the JSON encoding of the accessor's request structure, when the
verb is POST or PATCH; the body is present exactly for POST and PATCH. -/
theorem accessors_keep_request_invariant (env : Env) (c : ServerChange) (u : UserAttributes)
    (id : Int) (ext : String) (p : Panel) :
    keepsInvariant p (GetServers env p).2 none ∧
    keepsInvariant p (GetServer env id p).2 none ∧
    keepsInvariant p (GetServerAllocations id p).2 none ∧
    keepsInvariant p (CreateServer env c p).2 (Marshal ServerChange.toJSON c).toOption ∧
    keepsInvariant p (EditServerDetails env c id p).2 (Marshal ServerChange.toJSON c).toOption ∧
    keepsInvariant p (EditServerBuild env c id p).2 (Marshal ServerChange.toJSON c).toOption ∧
    keepsInvariant p (EditServerStartup env c id p).2 (Marshal ServerChange.toJSON c).toOption ∧
    keepsInvariant p (DeleteServer id p).2 none ∧
    keepsInvariant p (GetUsers env p).2 none ∧
    keepsInvariant p (GetUser env id p).2 none ∧
    keepsInvariant p (GetUserByExternal env ext p).2 none ∧
    keepsInvariant p (GetUserByPage env id p).2 none ∧
    keepsInvariant p (CreateUser env u p).2 (Marshal (UserAttributes.toJSON env) u).toOption ∧
    keepsInvariant p (EditUser env u id p).2 (Marshal (UserAttributes.toJSON env) u).toOption ∧
    keepsInvariant p (DeleteUser id p).2 none := by
  rw [GetServers_run, GetServer_run, GetServerAllocations_run, CreateServer_run,
    EditServerDetails_run, EditServerBuild_run, EditServerStartup_run, DeleteServer_run,
    GetUsers_run, GetUser_run, GetUserByExternal_run, GetUserByPage_run, CreateUser_run,
    EditUser_run, DeleteUser_run]
  simp only [Marshal_ServerChange, Except.toOption]
  refine ⟨keeps_exchange _ _ _ p _ (invariant_get _ _), keeps_exchange _ _ _ p _ (invariant_get _ _),
    keeps_exchange _ _ _ p _ (invariant_get _ _),
    keeps_exchange _ _ _ p _ (invariant_post _ _ (encode_obj_ne_empty _)),
    keeps_exchange _ _ _ p _ (invariant_patch _ _ (encode_obj_ne_empty _)),
    keeps_exchange _ _ _ p _ (invariant_patch _ _ (encode_obj_ne_empty _)),
    keeps_exchange _ _ _ p _ (invariant_patch _ _ (encode_obj_ne_empty _)),
    keeps_discard _ p _ (invariant_delete _ _), keeps_exchange _ _ _ p _ (invariant_get _ _),
    keeps_exchange _ _ _ p _ (invariant_get _ _), keeps_exchange _ _ _ p _ (invariant_get _ _),
    keeps_exchange _ _ _ p _ (invariant_get _ _), ?_, ?_,
    keeps_discard _ p _ (invariant_delete _ _)⟩
  · cases h : Marshal (UserAttributes.toJSON env) u with
    | error e => exact keeps_self p _
    | ok b =>
      obtain ⟨_, _, _, _, hb⟩ := Marshal_UserAttributes_ok env u b h
      exact keeps_exchange _ _ _ p _ (invariant_post _ _ (hb ▸ encode_obj_ne_empty _))
  · cases h : Marshal (UserAttributes.toJSON env) u with
    | error e => exact keeps_self p _
    | ok b =>
      obtain ⟨_, _, _, _, hb⟩ := Marshal_UserAttributes_ok env u b h
      exact keeps_exchange _ _ _ p _ (invariant_patch _ _ (hb ▸ encode_obj_ne_empty _))

/-- C4 as the spec states it fails: against the body
`{"object":"server","attributes":{"id":"42","name":"Survival"}}`, whose `id` is a
string, `GetServer(42)` returns a non-nil error together with a Server whose
`Object` and `Attributes.Name` were populated from the response. -/
theorem GetServer_error_with_populated_entity :
    (GetServer stdEnv 42 (constPanel mistypedBody none)).1.2 =
      some (.UnmarshalTypeError "string" "int") ∧
    (GetServer stdEnv 42 (constPanel mistypedBody none)).1.1.Object = "server" ∧
    (GetServer stdEnv 42 (constPanel mistypedBody none)).1.1.Attributes.Name = "Survival" ∧
    (GetServer stdEnv 42 (constPanel mistypedBody none)).1.1.Attributes.ID = 0 := by
  refine ⟨?_, ?_, ?_, ?_⟩ <;> rfl

/-- C4, amended: every decoding accessor, on a body the dispatcher returns without
error, returns exactly what `json.Unmarshal` makes of the body in a zero-valued
entity: a body that is not a JSON text gives a non-nil error with the zero-valued
entity; a nil error means the whole document was stored; otherwise the entity is
returned as decoding left it. -/
theorem accessors_decode_reply (env : Env) (c : ServerChange) (u : UserAttributes) (id : Int)
    (ext : String) (body : String) (p : Panel) :
    (p.answer p.log ⟨"servers", "get", none⟩ = ⟨body, none⟩ →
      DecodesReply (Servers.decode env) {} body (GetServers env p).1) ∧
    (p.answer p.log ⟨"servers/" ++ Itoa id, "get", none⟩ = ⟨body, none⟩ →
      DecodesReply (Server.decode env) {} body (GetServer env id p).1) ∧
    (p.answer p.log ⟨"servers/" ++ Itoa id ++ "?include=allocations", "get", none⟩ = ⟨body, none⟩ →
      DecodesReply decodeIntSlice none body (GetServerAllocations id p).1) ∧
    (p.answer p.log ⟨"servers", "post", some (encode (.obj c.members))⟩ = ⟨body, none⟩ →
      DecodesReply (Server.decode env) {} body (CreateServer env c p).1) ∧
    (p.answer p.log ⟨"servers/" ++ Itoa id ++ "/details", "patch",
        some (encode (.obj c.members))⟩ = ⟨body, none⟩ →
      DecodesReply (Server.decode env) {} body (EditServerDetails env c id p).1) ∧
    (p.answer p.log ⟨"servers/" ++ Itoa id ++ "/build", "patch",
        some (encode (.obj c.members))⟩ = ⟨body, none⟩ →
      DecodesReply (Server.decode env) {} body (EditServerBuild env c id p).1) ∧
    (p.answer p.log ⟨"servers/" ++ Itoa id ++ "/startup", "patch",
        some (encode (.obj c.members))⟩ = ⟨body, none⟩ →
      DecodesReply (Server.decode env) {} body (EditServerStartup env c id p).1) ∧
    (p.answer p.log ⟨"users", "get", none⟩ = ⟨body, none⟩ →
      DecodesReply (Users.decode env) {} body (GetUsers env p).1) ∧
    (p.answer p.log ⟨"users/" ++ Itoa id, "get", none⟩ = ⟨body, none⟩ →
      DecodesReply (User.decode env) {} body (GetUser env id p).1) ∧
    (p.answer p.log ⟨"users/" ++ ext, "get", none⟩ = ⟨body, none⟩ →
      DecodesReply (User.decode env) {} body (GetUserByExternal env ext p).1) ∧
    (p.answer p.log ⟨"users/" ++ Itoa id, "get", none⟩ = ⟨body, none⟩ →
      DecodesReply (User.decode env) {} body (GetUserByPage env id p).1) ∧
    (∀ b, Marshal (UserAttributes.toJSON env) u = .ok b →
      p.answer p.log ⟨"users", "post", some b⟩ = ⟨body, none⟩ →
      DecodesReply (User.decode env) {} body (CreateUser env u p).1) ∧
    (∀ b, Marshal (UserAttributes.toJSON env) u = .ok b →
      p.answer p.log ⟨"users/" ++ Itoa id, "patch", some b⟩ = ⟨body, none⟩ →
      DecodesReply (User.decode env) {} body (EditUser env u id p).1) := by
  rw [GetServers_run, GetServer_run, GetServerAllocations_run, CreateServer_run,
    EditServerDetails_run, EditServerBuild_run, EditServerStartup_run,
    GetUsers_run, GetUser_run, GetUserByExternal_run, GetUserByPage_run, CreateUser_run,
    EditUser_run]
  refine ⟨exchange_decodes _ _ _ p body, exchange_decodes _ _ _ p body,
    exchange_decodes _ _ _ p body, exchange_decodes _ _ _ p body, exchange_decodes _ _ _ p body,
    exchange_decodes _ _ _ p body, exchange_decodes _ _ _ p body, exchange_decodes _ _ _ p body,
    exchange_decodes _ _ _ p body, exchange_decodes _ _ _ p body, exchange_decodes _ _ _ p body,
    ?_, ?_⟩
  · intro b hb h
    simp only [hb]
    exact exchange_decodes _ _ _ p body h
  · intro b hb h
    simp only [hb]
    exact exchange_decodes _ _ _ p body h

/-- C4, amended, at a body that is not a JSON text: `GetServer(42)` against an HTML
page returns the syntax error with the zero-valued Server. -/
theorem GetServer_html_body :
    (GetServer stdEnv 42 (constPanel htmlBody none)).1 = ({}, some Error.SyntaxError) :=
  ((accessors_decode_reply stdEnv {} {} 42 "" htmlBody (constPanel htmlBody none)).2.1
    rfl).2.1 Error.SyntaxError (by rfl)

/-- C8, what the code does: whenever the dispatcher answers with no error and a
body that is a JSON object (as every single-entity envelope is),
`GetServerAllocations` returns the nil slice and a type error, since it
unmarshals the body into a `[]int`. -/
theorem GetServerAllocations_rejects_objects (id : Int) (body : String)
    (ms : List (String × JSON)) (p : Panel)
    (hans : p.answer p.log ⟨"servers/" ++ Itoa id ++ "?include=allocations", "get", none⟩ =
      ⟨body, none⟩)
    (hbody : parseJSON body = .ok (.obj ms)) :
    (GetServerAllocations id p).1 = (none, some (.UnmarshalTypeError "object" "[]int")) := by
  rw [GetServerAllocations_run]
  simp [exchange, hans, Unmarshal, hbody, decodeIntSlice, decodeSlice, saveError, kindOf]

/-- C8 at the envelope of server 1 with the allocations 5 and 6:
`GetServerAllocations(1)` returns the nil slice and a type error, although the
same body read as a Server lists the allocations 5 and 6. -/
theorem GetServerAllocations_envelope :
    (GetServerAllocations 1 (constPanel allocationsBody none)).1 =
      (none, some (.UnmarshalTypeError "object" "[]int")) ∧
    ((GetServer stdEnv 1 (constPanel allocationsBody none)).1.1.Attributes.Relationships.Allocations.Data.map
      (List.map (fun d => d.Attributes.ID))) = some [5, 6] :=
  ⟨GetServerAllocations_rejects_objects 1 allocationsBody _ (constPanel allocationsBody none) rfl
    (by rfl), by rfl⟩

end Crocgodyl
